import Mathlib

/-!
# Verification of the causal-loop simulation engine (`src/api/engine.js`)

This file gives a shallow embedding of the engine in Lean 4 and proves the
specification claims about it.

Modelling conventions:

* JavaScript numbers are modelled as exact rationals (`ℚ`).  The engine's
  arithmetic is plain `+ - * /` followed by saturation via `clamp`, so none of
  the claims under consideration depends on IEEE-754 rounding.  `ℚ` has no
  `NaN`/`Infinity`; the non-finite number produced by a failed coercion is
  modelled by the dedicated `JSValue.nan` constructor, and `toNumber`
  (the `Number.isFinite` guard in the source) is the only gate through which a
  raw input number reaches the engine, so no `NaN` ever reaches the arithmetic
  core — matching the source, where `clamp` maps `NaN` to `min` and every
  stored value has passed either `toNumber` or `clamp`.
* Loosely-typed inputs (`graphDescription`, `opts`) are modelled by the
  `JSValue` type below.  Property access on `null`/`undefined` throws in
  JavaScript; embedded functions that can hit such an access return
  `Except String _` and produce `.error "TypeError"` exactly there.
* Variable and edge identifiers are modelled as strings.  JavaScript would
  also admit non-string truthy `id`/`from`/`to` values (numbers, objects, …);
  the template and every claim use string ids only, so items carrying a
  non-string (or `undefined`) id are not represented: the normalizers here
  skip them.
* `Number` coercion is modelled in full for the representable values:
  strings through the ECMAScript `StringToNumber` grammar (whitespace
  trimming, empty string → 0, signed decimal literals with fraction and
  exponent, unsigned `0x`/`0o`/`0b` radix literals, `Infinity`), arrays
  through `join(",")` (empty → 0, a single element through its string image,
  two or more elements always contain a comma and coerce to `NaN`).  The
  numeric result carries the same `ℚ` idealization as the rest of the file:
  the exact rational denoted by the literal stands in for the rounded
  binary64, so there is no overflow to `Infinity` (`Number("1e999")`) nor
  underflow to `0` — every claim's concrete scenario stays well inside the
  range where the two agree.
* Every property name the engine reads on caller data (`variables`, `edges`,
  `id`, `weight`, `steps`, the five factor names, …) is a fixed string
  literal and none of them is a member of `Object.prototype`, so plain
  association-list lookup models those reads exactly.  The single lookup
  whose key is caller-controlled, `VARIABLE_FACTORS[variable.id]`
  (line 283), follows the JavaScript prototype chain: an id naming an
  inherited `Object.prototype` function of positive arity passes the
  `!anchors || !anchors.length` guard and `anchors.map` then throws
  `TypeError`, while zero-arity members, `__proto__` and absent ids fall
  through harmlessly; the chain is modelled by `OBJECT_PROTOTYPE_ARITY`.
* Snapshots are plain objects filled by assignment
  (`snapshot[key] = value`, lines 229–235), and assigning a number to the
  key `"__proto__"` invokes the inherited setter and is a silent no-op, so a
  variable with that id is dropped from every recorded snapshot
  (`snapshotValues`); the live `values` map — and with it the integration
  itself and `finalValues` — still carries it.
-/

namespace Engine

/-- A JavaScript value, as far as the engine inspects one.  `num` carries a
finite number; `nan` stands for any non-finite number (`NaN`, `±Infinity`). -/
inductive JSValue where
  | null
  | undefined
  | bool (b : Bool)
  | num (q : ℚ)
  | nan
  | str (s : String)
  | arr (items : List JSValue)
  | obj (fields : List (String × JSValue))

/-- JavaScript truthiness. -/
def truthy : JSValue → Bool
  | .null => false
  | .undefined => false
  | .bool b => b
  | .num q => q ≠ 0
  | .nan => false
  | .str s => s ≠ ""
  | .arr _ => true
  | .obj _ => true

/-- `a || b`: the first operand if truthy, otherwise the second. -/
def jsOr (a b : JSValue) : JSValue := if truthy a then a else b

/-- Is the value `null` or `undefined` (the two nullish values)? -/
def nullish : JSValue → Bool
  | .null => true
  | .undefined => true
  | _ => false

/-- Nullish coalescing `a ?? b`. -/
def jsCoalesce (a b : JSValue) : JSValue := if nullish a then b else a

/-- Is this value `null`?  (Property access on it throws.) -/
def isNull : JSValue → Bool
  | .null => true
  | _ => false

/-- Is this value `undefined`? -/
def isUndef : JSValue → Bool
  | .undefined => true
  | _ => false

/-- `typeof v === "object"` for a non-null `v`: arrays and plain objects. -/
def isObjectType : JSValue → Bool
  | .arr _ => true
  | .obj _ => true
  | _ => false

/-- Pure property access `base[name]`, used only where the source guarantees
`base` is neither `null` nor `undefined` (a possibly-throwing access is
`getField` below).  Primitives own none of the properties the engine reads,
so they yield `undefined`. -/
def getFieldP : JSValue → String → JSValue
  | .obj fields, name =>
      ((fields.find? (fun kv => kv.1 = name)).map (fun kv => kv.2)).getD .undefined
  | _, _ => .undefined

/-- Property access modelling the JavaScript `TypeError` thrown on a
`null`/`undefined` base. -/
def getField (v : JSValue) (name : String) : Except String JSValue :=
  match v with
  | .null => .error "TypeError"
  | .undefined => .error "TypeError"
  | _ => .ok (getFieldP v name)

/-- The `= {}` default parameter of the source functions: substitute an empty
object for `undefined` (and only for `undefined`). -/
def defaultUndef (v : JSValue) : JSValue := if isUndef v then .obj [] else v

/-- The ECMAScript `StrWhiteSpaceChar` set (`WhiteSpace` ∪ `LineTerminator`)
trimmed by `StringToNumber`. -/
def strWhiteChars : List Char :=
  ['\t', '\n', '\x0b', '\x0c', '\r', ' ', '\xa0', '\u1680',
   '\u2000', '\u2001', '\u2002', '\u2003', '\u2004', '\u2005', '\u2006',
   '\u2007', '\u2008', '\u2009', '\u200A', '\u2028', '\u2029', '\u202F',
   '\u205F', '\u3000', '\uFEFF']

/-- Is `c` string-to-number whitespace? -/
def isStrWhite (c : Char) : Bool := strWhiteChars.contains c

/-- Leading and trailing `StrWhiteSpace` stripped. -/
def trimWhite (cs : List Char) : List Char :=
  ((cs.dropWhile isStrWhite).reverse.dropWhile isStrWhite).reverse

/-- Value of a string of decimal digits. -/
def decVal (cs : List Char) : ℕ :=
  cs.foldl (fun a c => 10 * a + (c.toNat - '0'.toNat)) 0

/-- Value of one digit in a radix up to 16, if valid. -/
def hexVal (c : Char) : Option ℕ :=
  if c.isDigit then some (c.toNat - '0'.toNat)
  else if 'a' ≤ c ∧ c ≤ 'f' then some (c.toNat - 'a'.toNat + 10)
  else if 'A' ≤ c ∧ c ≤ 'F' then some (c.toNat - 'A'.toNat + 10)
  else none

/-- Value of a non-empty digit string in radix `base` (2, 8 or 16), if every
digit is valid for that radix. -/
def radixVal (base : ℕ) (cs : List Char) : Option ℕ :=
  cs.foldl (fun acc c =>
    match acc, hexVal c with
    | some a, some d => if d < base then some (base * a + d) else none
    | _, _ => none)
    (if cs.isEmpty then none else some 0)

/-- The `ExponentPart` of a `StrDecimalLiteral`: nothing (exponent 0), or
`e`/`E`, an optional sign, and at least one decimal digit consuming the whole
rest of the string. -/
def parseExpPart (cs : List Char) : Option ℤ :=
  if cs = [] then some 0
  else if cs.take 1 = ['e'] ∨ cs.take 1 = ['E'] then
    let r := cs.drop 1
    if r.take 1 = ['+'] then
      if (r.drop 1) ≠ [] ∧ (r.drop 1).all Char.isDigit then some (decVal (r.drop 1))
      else none
    else if r.take 1 = ['-'] then
      if (r.drop 1) ≠ [] ∧ (r.drop 1).all Char.isDigit then some (-(decVal (r.drop 1) : ℤ))
      else none
    else if r ≠ [] ∧ r.all Char.isDigit then some (decVal r)
    else none
  else none

/-- A `StrUnsignedDecimalLiteral` without the `Infinity` form: integer
digits, an optional `.` fraction, and an optional exponent — at least one
digit overall, nothing left over. -/
def parseDec (cs : List Char) : Option ℚ :=
  let ip := cs.takeWhile Char.isDigit
  let r1 := cs.dropWhile Char.isDigit
  if r1.take 1 = ['.'] then
    let fp := (r1.drop 1).takeWhile Char.isDigit
    let r3 := (r1.drop 1).dropWhile Char.isDigit
    if ip = [] ∧ fp = [] then none
    else
      match parseExpPart r3 with
      | none => none
      | some e =>
        some (((decVal ip : ℚ) + (decVal fp : ℚ) / (10 : ℚ) ^ fp.length) * (10 : ℚ) ^ e)
  else if ip = [] then none
  else
    match parseExpPart r1 with
    | none => none
    | some e => if e = 0 then some (decVal ip : ℚ) else some ((decVal ip : ℚ) * (10 : ℚ) ^ e)

/-- ECMAScript `StringToNumber`, restricted to finite results: whitespace is
trimmed, the empty remainder is 0, a `0x`/`0o`/`0b` radix literal carries no
sign, `±Infinity` parses but is not finite (`none`, like every unparsable
string), and otherwise an optionally signed decimal literal. -/
def jsStrToNumL (cs : List Char) : Option ℚ :=
  let t := trimWhite cs
  if t = [] then some 0
  else if t.take 2 = ['0', 'x'] ∨ t.take 2 = ['0', 'X'] then
    (radixVal 16 (t.drop 2)).map (fun n => (n : ℚ))
  else if t.take 2 = ['0', 'o'] ∨ t.take 2 = ['0', 'O'] then
    (radixVal 8 (t.drop 2)).map (fun n => (n : ℚ))
  else if t.take 2 = ['0', 'b'] ∨ t.take 2 = ['0', 'B'] then
    (radixVal 2 (t.drop 2)).map (fun n => (n : ℚ))
  else if t = "Infinity".data ∨ t = "+Infinity".data ∨ t = "-Infinity".data then none
  else if t.take 1 = ['+'] then parseDec (t.drop 1)
  else if t.take 1 = ['-'] then (parseDec (t.drop 1)).map (fun q => -q)
  else parseDec t

/-- `Number(string)` restricted to finite results. -/
def jsStrToNum (s : String) : Option ℚ := jsStrToNumL s.data

/-- `Number(v)` restricted to its finite outcomes: `some q` when the coercion
yields the finite number `q`, `none` when it yields a non-finite number.
Arrays coerce through `ToPrimitive` and `Array.prototype.join(",")`: the
empty array gives the empty string (0); a single element goes through its
string image — `undefined`/`null` join to the empty string (0), booleans to
`"true"`/`"false"` (`NaN`), a number or string to itself, a nested array
recursively, an object to `"[object Object]"` (`NaN`); two or more elements
always leave a comma in the joined string, which never parses (`NaN`).  A
plain object itself stringifies to `"[object Object]"` (`NaN`). -/
def jsToNum : JSValue → Option ℚ
  | .null => some 0
  | .undefined => none
  | .bool b => some (if b then 1 else 0)
  | .num q => some q
  | .nan => none
  | .str s => jsStrToNum s
  | .arr [] => some 0
  | .arr [.undefined] => some 0
  | .arr [.null] => some 0
  | .arr [.bool _] => none
  | .arr [x] => jsToNum x
  | .arr (_ :: _ :: _) => none
  | .obj _ => none

/-- `engine.js` line 3, `clamp`.  The source's `NaN` guard (return `min`) has
no `ℚ` counterpart; see the header. -/
def clamp (value min max : ℚ) : ℚ := Max.max min (Min.min max value)

/-- `engine.js` line 10, `toNumber`: `Number(value)` when finite, else the
fallback. -/
def toNumber (value : JSValue) (fallback : ℚ) : ℚ := (jsToNum value).getD fallback

/-- `engine.js` line 15, `NORMALIZED_RANGE`, as a `(min, max)` pair. -/
def NORMALIZED_RANGE : ℚ × ℚ := (0, 10)

/-- Canonical variable `{id, value, baseline}`. -/
structure Variable where
  id : String
  value : ℚ
  baseline : ℚ
deriving DecidableEq, Repr

/-- Canonical edge `{from, to, weight}` (`from` is a Lean keyword, hence
`fromId`/`toId`). -/
structure Edge where
  fromId : String
  toId : String
  weight : ℚ
deriving DecidableEq, Repr

/-! ## GraphNormalizer (`normalizeVariables`, `normalizeEdges`) -/

/-- One iteration of the `rawNodes.forEach` loop of `normalizeVariables`
(array branch, lines 21–38): the variable pushed for `item`, if any.
The source pushes at most one variable per item, so the loop is a
`filterMap`. -/
def normalizeVariableItem (item : JSValue) : Option Variable :=
  if truthy item = false then none
  else
    match item with
    | .str s => some ⟨s, 5, 5⟩
    | _ =>
      -- `const id = item.id || item.name; if (!id) return;`
      match jsOr (getFieldP item "id") (getFieldP item "name") with
      | .str id =>
        if id = "" then none
        else
          let initial := toNumber (jsCoalesce (getFieldP item "initial")
            (jsCoalesce (getFieldP item "value")
              (jsCoalesce (getFieldP item "start") (.num 5)))) 5
          let baseline := toNumber (jsCoalesce (getFieldP item "baseline")
            (jsCoalesce (getFieldP item "setPoint") (.num initial))) 5
          some ⟨id, clamp initial NORMALIZED_RANGE.1 NORMALIZED_RANGE.2,
            clamp baseline NORMALIZED_RANGE.1 NORMALIZED_RANGE.2⟩
      | _ => none   -- a falsy id, or a truthy non-string id (not modelled)

/-- One iteration of the `Object.entries(rawNodes).forEach` loop of
`normalizeVariables` (keyed-mapping branch, lines 41–57). -/
def normalizeVariableEntry (id : String) (item : JSValue) : Option Variable :=
  if id = "" then none   -- `if (!id) return` — entry keys are strings
  else if truthy item && isObjectType item then
    -- `item && typeof item === "object"` (`null` is falsy, arrays qualify)
    let initial := toNumber (jsCoalesce (getFieldP item "initial")
      (jsCoalesce (getFieldP item "value")
        (jsCoalesce (getFieldP item "start") (.num 5)))) 5
    let baseline := toNumber (jsCoalesce (getFieldP item "baseline")
      (jsCoalesce (getFieldP item "setPoint") (.num initial))) 5
    some ⟨id, clamp initial NORMALIZED_RANGE.1 NORMALIZED_RANGE.2,
      clamp baseline NORMALIZED_RANGE.1 NORMALIZED_RANGE.2⟩
  else
    let initial := toNumber item 5
    some ⟨id, clamp initial NORMALIZED_RANGE.1 NORMALIZED_RANGE.2,
      clamp initial NORMALIZED_RANGE.1 NORMALIZED_RANGE.2⟩

/-- `normalizeVariables` (lines 17–61) after its `null` check: the body is
total once `graph.variables` etc. cannot throw. -/
def normalizeVariablesPure (graph : JSValue) : List Variable :=
  -- `rawNodes = graph.variables || graph.nodes || graph.stocks || graph.vertices || graph`
  match jsOr (getFieldP graph "variables") (jsOr (getFieldP graph "nodes")
    (jsOr (getFieldP graph "stocks") (jsOr (getFieldP graph "vertices") graph))) with
  | .arr items => items.filterMap normalizeVariableItem
  | .obj fields => fields.filterMap (fun kv => normalizeVariableEntry kv.1 kv.2)
  | _ => []

/-- `normalizeVariables`: the four property reads on `graph` throw exactly
when `graph` is `null` (the `= {}` default parameter replaces `undefined`
only). -/
def normalizeVariables (graph : JSValue) : Except String (List Variable) :=
  if isNull graph then .error "TypeError"
  else .ok (normalizeVariablesPure (defaultUndef graph))

/-- One iteration of the `rawEdges.forEach` loop of `normalizeEdges`
(array branch, lines 67–75). -/
def normalizeEdgeItem (edge : JSValue) : Option Edge :=
  if truthy edge = false then none
  else
    match jsOr (getFieldP edge "from") (getFieldP edge "source"),
          jsOr (getFieldP edge "to") (getFieldP edge "target") with
    | .str f, .str t =>
      if f = "" ∨ t = "" then none   -- `if (!from || !to) return`
      else some ⟨f, t, toNumber (jsCoalesce (getFieldP edge "weight")
        (jsCoalesce (getFieldP edge "strength")
          (jsCoalesce (getFieldP edge "value") (.num 0)))) 0⟩
    | _, _ => none   -- a falsy endpoint, or a truthy non-string one (not modelled)

/-- One iteration of the inner `value.forEach(target => …)` loop of
`normalizeEdges` (keyed mapping whose value is a list of targets,
lines 79–85). -/
def normalizeEdgeTarget (key : String) (target : JSValue) : Option Edge :=
  if truthy target = false then none
  else
    match target with
    | .str t => some ⟨key, t, 0.5⟩
    | _ =>
      -- `target.to || target.target`; only an object can yield a string here,
      -- and for an object the weight is `target.weight ?? target.strength ??
      -- target.value ?? 0` through `toNumber`.
      match jsOr (getFieldP target "to") (getFieldP target "target") with
      | .str t => some ⟨key, t, toNumber (jsCoalesce (getFieldP target "weight")
          (jsCoalesce (getFieldP target "strength")
            (jsCoalesce (getFieldP target "value") (.num 0)))) 0⟩
      | _ => none
        -- Here JavaScript pushes an edge whose `to` is `undefined` (or another
        -- non-string); such an edge is skipped by integration (`values.has`
        -- fails) and is not representable with string ids, so it is not
        -- modelled.  No claim exercises this corner.

/-- One iteration of the `Object.entries(rawEdges).forEach` loop of
`normalizeEdges` (keyed-mapping branch, lines 77–93). -/
def normalizeEdgeEntry (key : String) (value : JSValue) : List Edge :=
  if truthy value = false then []
  else
    match value with
    | .arr targets => targets.filterMap (normalizeEdgeTarget key)
    | .obj _ =>
      let fromV := jsOr (getFieldP value "from") (jsOr (getFieldP value "source") (.str key))
      let toV := jsOr (getFieldP value "to") (getFieldP value "target")
      if truthy toV = false then []   -- `if (!to) return`
      else
        match fromV, toV with
        | .str f, .str t => [⟨f, t, toNumber (jsCoalesce (getFieldP value "weight")
            (jsCoalesce (getFieldP value "strength")
              (jsCoalesce (getFieldP value "value") (.num 0)))) 0⟩]
        | _, _ => []   -- truthy non-string endpoints (not modelled)
    | _ => []   -- primitive entry values have no branch in the source

/-- `normalizeEdges` (lines 63–97) after its `null` check. -/
def normalizeEdgesPure (graph : JSValue) : List Edge :=
  -- `rawEdges = graph.edges || graph.links || graph.connections || []`
  match jsOr (getFieldP graph "edges") (jsOr (getFieldP graph "links")
    (jsOr (getFieldP graph "connections") (.arr []))) with
  | .arr items => items.filterMap normalizeEdgeItem
  | .obj fields => fields.foldl (fun acc kv => acc ++ normalizeEdgeEntry kv.1 kv.2) []
  | _ => []

/-- `normalizeEdges`: the three property reads on `graph` throw exactly when
`graph` is `null`. -/
def normalizeEdges (graph : JSValue) : Except String (List Edge) :=
  if isNull graph then .error "TypeError"
  else .ok (normalizeEdgesPure (defaultUndef graph))

/-! ## CycleDetector (`buildAdjacency`, `canonicalizeCycle`, `detectCycles`) -/

/-- `Math.sign`. -/
def jsSign (q : ℚ) : ℚ := if 0 < q then 1 else if q < 0 then -1 else 0

/-- `buildAdjacency` (lines 99–108) builds a `Map` from source id to the
pushes in edge order; `adjacency.get(current) || []` is therefore exactly
this filter. -/
def outgoing (edges : List Edge) (node : String) : List (String × ℚ) :=
  (edges.filter (fun e => e.fromId = node)).map (fun e => (e.toId, e.weight))

/-- `Array.prototype.indexOf` on the DFS stack. -/
def stackIndexOf (stack : List String) (x : String) : Option ℕ :=
  match stack with
  | [] => none
  | y :: ys => if y = x then some 0 else (stackIndexOf ys x).map (fun i => i + 1)

/-- JavaScript string `<`: lexicographic on the character sequences (UTF-16
code units; every id in play is ASCII, where unit order and code-point order
agree). -/
def charListLt : List Char → List Char → Bool
  | _, [] => false
  | [], _ :: _ => true
  | a :: as, b :: bs =>
    if a < b then true
    else if b < a then false
    else charListLt as bs

/-- String comparison used by the rotation sort. -/
def strLtB (a b : String) : Bool := charListLt a.data b.data

/-- The element-wise comparator of `canonicalizeCycle` (lines 120–126),
restricted to the equal-length lists it is applied to: strict
lexicographic less-than. -/
def listLexLt : List String → List String → Bool
  | a :: as, b :: bs => if a = b then listLexLt as bs else strLtB a b
  | _, _ => false

/-- `rotations.sort(cmp)[0]`: the sort is stable and ties are only between
identical lists, so the first element after sorting is the leftmost
lexicographic minimum. -/
def minRotation (rotations : List (List String)) : List String :=
  rotations.foldl (fun best r => if listLexLt r best then r else best) (rotations.headD [])

/-- `canonicalizeCycle` (lines 110–129). -/
def canonicalizeCycle (nodes : List String) : Option String :=
  if nodes.isEmpty then none
  else
    let simple := nodes.dropLast
    let n := simple.length
    if n = 0 then none
    else
      let rotations := (List.range n).map (fun i => simple.drop i ++ simple.take i)
      let canonical := minRotation rotations
      some (String.intercalate "->" (canonical ++ [canonical.headD ""]))

/-- `CycleRecord` (the object stored in `seen`, lines 160–166).  `dominance`
is an integer (`Math.round`). -/
structure CycleRecord where
  type : String
  dominance : ℤ
  nodes : List String
  chain : String
  weights : List ℚ
deriving DecidableEq, Repr

/-- Line 155: the polarity product `acc * (weight === 0 ? 0 : sign(weight))`
over the cycle's weights. -/
def signProduct (cycleWeights : List ℚ) : ℚ :=
  cycleWeights.foldl (fun acc weight => acc * (if weight = 0 then 0 else jsSign weight)) 1

/-- Line 156: the mean absolute weight of a cycle. -/
def avgAbsOf (cycleWeights : List ℚ) : ℚ :=
  (cycleWeights.foldl (fun acc weight => acc + |weight|) 0) / (cycleWeights.length : ℚ)

/-- The record built for a newly discovered cycle (lines 155–166). -/
def mkCycleRecord (maxAbs : ℚ) (cycleNodes : List String) (cycleWeights : List ℚ) :
    CycleRecord :=
  { type := if 0 < signProduct cycleWeights then "Reinforcing" else "Balancing"
    dominance := round (clamp ((avgAbsOf cycleWeights / maxAbs) * 100) 0 100)
    nodes := cycleNodes.dropLast
    chain := String.intercalate " → " cycleNodes
    weights := cycleWeights }

/-- `maxAbs` (line 137); `|| 1` fires exactly when the fold produced `0`
(the fold's result is never negative, and never `NaN` over `ℚ`). -/
def maxAbsOf (edges : List Edge) : ℚ :=
  if edges.foldl (fun acc e => Max.max acc |e.weight|) 0 = 0 then 1
  else edges.foldl (fun acc e => Max.max acc |e.weight|) 0

/-- The recursive `visit` closure of `detectCycles` (lines 143–175), with the
mutable `stack`/`edgeStack`/`seen` threaded explicitly.  The source's `stack.push(current)` /
`edgeStack.push(edge.weight)` appear inlined as `stack ++ [current]` and
`edgeStack ++ [out.2]` (the stacks are restored by `pop` before the next
iteration, so each fold step sees the same base stacks).  `fuel` only bounds
the recursion depth for Lean's termination checker: `visit` recurses solely
on a target absent from the current path stack, every stack entry is an
endpoint of some edge, and the stack grows by one per call, so the depth of
any call chain is at most the number of distinct endpoint nodes; a top-level
call with that much fuel never exhausts it. -/
def visitCycles (edges : List Edge) (maxAbs : ℚ) :
    ℕ → String → List String → List ℚ → List (String × CycleRecord) →
    List (String × CycleRecord)
  | 0, _, _, _, seen => seen
  | fuel + 1, current, stack, edgeStack, seen =>
    (outgoing edges current).foldl (fun seen out =>
      match stackIndexOf (stack ++ [current]) out.1 with
      | some idx =>
        if (stack ++ [current]).length - idx ≥ 1 then
          match canonicalizeCycle ((stack ++ [current]).drop idx ++ [out.1]) with
          | some key =>
            if seen.any (fun kv => kv.1 = key) then seen
            else seen ++ [(key,
              mkCycleRecord maxAbs ((stack ++ [current]).drop idx ++ [out.1])
                ((edgeStack ++ [out.2]).drop idx))]
          | none => seen
        else seen
      | none =>
        visitCycles edges maxAbs fuel out.1 (stack ++ [current]) (edgeStack ++ [out.2]) seen)
      seen

/-- `Array.from(new Set(edges.flatMap(e => [e.from, e.to])))`: a JavaScript
`Set` preserves first-insertion order. -/
def endpointNodes (edges : List Edge) : List String :=
  (edges.foldl (fun acc e => acc ++ [e.fromId, e.toId]) []).foldl
    (fun acc n => if n ∈ acc then acc else acc ++ [n]) []

/-- `detectCycles` (lines 131–184), keyed form: the `seen` map as a list of
`(canonical key, record)` pairs in insertion order. -/
def detectCyclesKeyed (edges : List Edge) : List (String × CycleRecord) :=
  if edges.isEmpty then []
  else (endpointNodes edges).foldl
    (fun seen node =>
      visitCycles edges (maxAbsOf edges) (endpointNodes edges).length node [] [] seen) []

/-- `detectCycles`: `Array.from(seen.values())`. -/
def detectCycles (edges : List Edge) : List CycleRecord :=
  (detectCyclesKeyed edges).map (fun kv => kv.2)

/-! ## StateProjector (`deriveFiveFactorState`) and the JS `Map` model -/

/-- `Map.prototype.has` for the engine's string-keyed maps of numbers. -/
def jsMapHas (m : List (String × ℚ)) (k : String) : Bool := m.any (fun kv => kv.1 = k)

/-- `Map.prototype.get`. -/
def jsMapGet (m : List (String × ℚ)) (k : String) : Option ℚ :=
  (m.find? (fun kv => kv.1 = k)).map (fun kv => kv.2)

/-- `Map.prototype.set`: overwrite in place if the key exists (keeping its
position in iteration order), otherwise append. -/
def jsMapSet (m : List (String × ℚ)) (k : String) (v : ℚ) : List (String × ℚ) :=
  if jsMapHas m k then m.map (fun kv => if kv.1 = k then (k, v) else kv)
  else m ++ [(k, v)]

/-- `FiveFactorState`. -/
structure FiveFactorState where
  vitality : ℚ
  cognition : ℚ
  emotion : ℚ
  adaptability : ℚ
  meaning : ℚ
deriving DecidableEq, Repr

/-- `getValue` (lines 187–192): the final value of a variable, or the neutral
5. -/
def getValueOr5 (finalValues : List (String × ℚ)) (name : String) : ℚ :=
  (jsMapGet finalValues name).getD 5

/-- `aggregate` (lines 194–201). -/
def aggregate (finalValues : List (String × ℚ)) (positives negatives : List String) : ℚ :=
  let posValues := if positives.isEmpty then [5] else positives.map (getValueOr5 finalValues)
  let negValues := if negatives.isEmpty then [5] else negatives.map (getValueOr5 finalValues)
  let posAvg := (posValues.foldl (fun sum v => sum + v) 0) / (posValues.length : ℚ)
  let negAvg := (negValues.foldl (fun sum v => sum + v) 0) / (negValues.length : ℚ)
  clamp (5 + (posAvg - 5) * 0.6 - (negAvg - 5) * 0.6) 1 10

/-- `deriveFiveFactorState` (lines 186–212). -/
def deriveFiveFactorState (finalValues : List (String × ℚ)) : FiveFactorState :=
  { vitality := aggregate finalValues ["Belonging", "VagalTone"]
      ["Isolation", "HPA", "Inflammation", "Neurodegeneration"]
    cognition := aggregate finalValues ["Meaning", "Belonging"]
      ["Isolation", "Neurodegeneration", "Withdrawal"]
    emotion := aggregate finalValues ["Belonging", "Meaning", "VagalTone"]
      ["Isolation", "Withdrawal", "HPA"]
    adaptability := aggregate finalValues ["VagalTone", "Meaning", "Belonging"]
      ["HPA", "Inflammation", "Isolation"]
    meaning := aggregate finalValues ["Meaning", "Belonging"]
      ["Isolation", "Withdrawal"] }

/-! ## Integrator (`runEulerSimulation`) -/

/-- Line 215: `Number.isInteger(opts.steps) && opts.steps > 0 ? opts.steps :
12` — a finite number is an integer exactly when its reduced denominator is
1. -/
def stepsOf (opts : JSValue) : ℕ :=
  match getFieldP opts "steps" with
  | .num q => if q.den = 1 ∧ 0 < q.num then q.num.toNat else 12
  | _ => 12

/-- Line 216: `typeof opts.dt === "number" && Number.isFinite(opts.dt)` — the
`num` constructor carries exactly the finite numbers. -/
def dtOf (opts : JSValue) : ℚ :=
  match getFieldP opts "dt" with
  | .num q => q
  | _ => 0.35

/-- Line 217, as for `dt`. -/
def dampingOf (opts : JSValue) : ℚ :=
  match getFieldP opts "damping" with
  | .num q => q
  | _ => 0.28

/-- Lines 219–225: the `values` map seeded from the variable list (later
duplicate ids overwrite earlier ones, as `Map.set` does). -/
def initialValues (vars : List Variable) : List (String × ℚ) :=
  vars.foldl
    (fun m v => jsMapSet m v.id (clamp v.value NORMALIZED_RANGE.1 NORMALIZED_RANGE.2)) []

/-- Lines 219–225: the `baselines` map. -/
def baselineValues (vars : List Variable) : List (String × ℚ) :=
  vars.foldl
    (fun m v => jsMapSet m v.id (clamp v.baseline NORMALIZED_RANGE.1 NORMALIZED_RANGE.2)) []

/-- Lines 240–251: the per-step `deltas` map — zero for every current key,
then `deltas[to] += values[from] * weight` for every edge whose two
endpoints are keys of `values`. -/
def influenceDeltas (edges : List Edge) (values : List (String × ℚ)) :
    List (String × ℚ) :=
  edges.foldl (fun deltas e =>
    if jsMapHas values e.fromId && jsMapHas values e.toId then
      jsMapSet deltas e.toId
        (((jsMapGet deltas e.toId).getD 0) + ((jsMapGet values e.fromId).getD 0) * e.weight)
    else deltas)
    (values.map (fun kv => (kv.1, (0 : ℚ))))

/-- Lines 239–258: one synchronous integration step.  `deltas` is computed
from the values at the start of the step only, and each variable is then
updated from its own start-of-step value — `values.set` during
`Map.forEach` does not disturb the iteration, and no update reads another
entry of `values`. -/
def eulerStep (edges : List Edge) (baselines : List (String × ℚ)) (dt damping : ℚ)
    (values : List (String × ℚ)) : List (String × ℚ) :=
  let deltas := influenceDeltas edges values
  values.map (fun kv =>
    (kv.1, clamp
      (kv.2 + dt * (((jsMapGet deltas kv.1).getD 0) -
        damping * (kv.2 - ((jsMapGet baselines kv.1).getD 5))))
      NORMALIZED_RANGE.1 NORMALIZED_RANGE.2))

/-- `captureSnapshot` (lines 229–235) copies the `values` map into a plain
object by assignment; `snapshot["__proto__"] = value` invokes the inherited
`Object.prototype.__proto__` setter and, the value being a number, is a
silent no-op, so a variable with that id is dropped from every recorded
snapshot.  Every other key — inherited data properties such as
`"constructor"` included — is shadowed by a normal own property. -/
def snapshotValues (m : List (String × ℚ)) : List (String × ℚ) :=
  m.filter (fun kv => kv.1 ≠ "__proto__")

/-- A `{step, values}` snapshot (lines 229–235). -/
structure Snapshot where
  step : ℕ
  values : List (String × ℚ)
deriving DecidableEq, Repr

/-- The `{timeSeries, finalValues}` result of `runEulerSimulation`. -/
structure EulerResult where
  timeSeries : List Snapshot
  finalValues : List (String × ℚ)
deriving DecidableEq, Repr

/-- `runEulerSimulation` (lines 214–264).  The source's `for` loop records one
snapshot after each step, starting from snapshot 0 taken before the loop:
the state recorded at step `i` is the `i`-fold application of `eulerStep` to
the seeded map, passed through the `snapshotValues` plain-object copy (which
drops a `"__proto__"` key); `finalValues` is the live `Map` itself,
unfiltered.  Reading `opts.steps` throws exactly when `opts` is `null` (the
`= {}` default replaces `undefined` only). -/
def runEulerSimulation (vars : List Variable) (edges : List Edge)
    (opts : JSValue) : Except String EulerResult :=
  if isNull opts then .error "TypeError"
  else
    let o := defaultUndef opts
    let steps := stepsOf o
    let dt := dtOf o
    let damping := dampingOf o
    let values0 := initialValues vars
    let baselines := baselineValues vars
    .ok { timeSeries := (List.range (steps + 1)).map
            (fun i => ⟨i, snapshotValues ((eulerStep edges baselines dt damping)^[i] values0)⟩)
          finalValues := (eulerStep edges baselines dt damping)^[steps] values0 }

/-! ## InitialStateAnchor (`VARIABLE_FACTORS`, `applyInitialStateAnchors`) -/

/-- `VARIABLE_FACTORS` (lines 266–275). -/
def VARIABLE_FACTORS : List (String × List String) :=
  [("Isolation", ["emotion", "meaning"]),
   ("Belonging", ["emotion", "meaning"]),
   ("HPA", ["vitality", "adaptability"]),
   ("Inflammation", ["vitality", "adaptability"]),
   ("Neurodegeneration", ["cognition", "vitality"]),
   ("Withdrawal", ["emotion", "adaptability"]),
   ("VagalTone", ["vitality", "adaptability", "emotion"]),
   ("Meaning", ["meaning", "cognition"])]

/-- The members `VARIABLE_FACTORS[variable.id]` can reach through the
prototype chain when the id is not an own key of the table: the eleven
inherited `Object.prototype` functions, each with its arity (`.length`).
`__proto__` is also inherited, but it is an accessor yielding an object
whose `.length` is `undefined` — falsy, so it behaves exactly like an absent
entry and needs no row here. -/
def OBJECT_PROTOTYPE_ARITY : List (String × ℕ) :=
  [("constructor", 1), ("hasOwnProperty", 1), ("isPrototypeOf", 1),
   ("propertyIsEnumerable", 1), ("toLocaleString", 0), ("toString", 0),
   ("valueOf", 0), ("__defineGetter__", 2), ("__defineSetter__", 2),
   ("__lookupGetter__", 1), ("__lookupSetter__", 1)]

/-- The body of the `variables.map` of `applyInitialStateAnchors`
(lines 282–302).  `VARIABLE_FACTORS[variable.id]` finds an own key first and
otherwise follows the prototype chain (`OBJECT_PROTOTYPE_ARITY`): an
inherited function of positive arity passes `!anchors || !anchors.length`
and `anchors.map` then throws `TypeError` (functions have no `map`); a
zero-arity one, `__proto__`, and an absent id fail the guard and return the
variable unmodified.  For an own entry,
`anchors.map(toNumber(·, NaN)).filter(Number.isFinite)` is the `filterMap`
of the finite coercions. -/
def anchorVariable (initialState : JSValue) (v : Variable) : Except String Variable :=
  match VARIABLE_FACTORS.find? (fun kv => kv.1 = v.id) with
  | some kv =>
    if kv.2.isEmpty then .ok v   -- dead: the table has no empty entry
    else
      if (kv.2.filterMap (fun factor => jsToNum (getFieldP initialState factor))).isEmpty
      then .ok v
      else
        .ok { v with
          value := clamp
            (((kv.2.filterMap (fun factor => jsToNum (getFieldP initialState factor))).foldl
              (fun sum v => sum + v) 0) /
              ((kv.2.filterMap (fun factor =>
                jsToNum (getFieldP initialState factor))).length : ℚ))
            NORMALIZED_RANGE.1 NORMALIZED_RANGE.2
          baseline := clamp
            (((kv.2.filterMap (fun factor => jsToNum (getFieldP initialState factor))).foldl
              (fun sum v => sum + v) 0) /
              ((kv.2.filterMap (fun factor =>
                jsToNum (getFieldP initialState factor))).length : ℚ))
            NORMALIZED_RANGE.1 NORMALIZED_RANGE.2 }
  | none =>
    match OBJECT_PROTOTYPE_ARITY.find? (fun kv => kv.1 = v.id) with
    | some kv => if kv.2 = 0 then .ok v else .error "TypeError"
    | none => .ok v

/-- The `variables.map` of line 282: `Array.prototype.map` applies the
callback in index order and the first `TypeError` aborts the call. -/
def anchorAll (initialState : JSValue) : List Variable → Except String (List Variable)
  | [] => .ok []
  | v :: t => do
    let w ← anchorVariable initialState v
    let ws ← anchorAll initialState t
    pure (w :: ws)

/-- `applyInitialStateAnchors` (lines 277–303). -/
def applyInitialStateAnchors (vars : List Variable) (initialState : JSValue) :
    Except String (List Variable) :=
  if !truthy initialState || !isObjectType initialState then .ok vars
  else anchorAll initialState vars

/-! ## `runCausalSimulation` -/

/-- The 8-variable template (lines 309–318). -/
def defaultVariables : List Variable :=
  [⟨"Isolation", 6, 5⟩, ⟨"Belonging", 4, 5⟩, ⟨"HPA", 6, 5⟩, ⟨"Inflammation", 5.5, 5⟩,
   ⟨"Neurodegeneration", 5.2, 5⟩, ⟨"Withdrawal", 5.8, 5⟩, ⟨"VagalTone", 4.8, 5⟩,
   ⟨"Meaning", 4.5, 5⟩]

/-- The 12-edge template (lines 320–333). -/
def defaultEdges : List Edge :=
  [⟨"Isolation", "HPA", 0.65⟩, ⟨"HPA", "Inflammation", 0.7⟩,
   ⟨"Inflammation", "Neurodegeneration", 0.55⟩, ⟨"Neurodegeneration", "Withdrawal", 0.42⟩,
   ⟨"Withdrawal", "Isolation", 0.58⟩, ⟨"Belonging", "Isolation", -0.62⟩,
   ⟨"Belonging", "VagalTone", 0.57⟩, ⟨"VagalTone", "HPA", -0.68⟩,
   ⟨"Meaning", "Belonging", 0.6⟩, ⟨"Meaning", "Isolation", -0.45⟩,
   ⟨"Isolation", "Meaning", -0.35⟩, ⟨"VagalTone", "Meaning", 0.38⟩]

/-- `variables.length ? variables : [template]` (line 309). -/
def withVariableFallback (vars : List Variable) : List Variable :=
  if vars.isEmpty then defaultVariables else vars

/-- `edges.length ? edges : [template]` (line 320). -/
def withEdgeFallback (edges : List Edge) : List Edge :=
  if edges.isEmpty then defaultEdges else edges

/-- The `{loopsDetected, timeSeries, newState}` result. -/
structure SimOutput where
  loopsDetected : List CycleRecord
  timeSeries : List Snapshot
  newState : FiveFactorState
deriving DecidableEq, Repr

/-- `runCausalSimulation` (lines 305–345).  The possible `TypeError`s — a
`null` graph inside the normalizers, a `null` `opts` at `opts.initialState`,
and a prototype-chain hit inside `applyInitialStateAnchors` — surface as
`.error`. -/
def runCausalSimulation (causalGraph opts : JSValue) : Except String SimOutput := do
  let vars ← normalizeVariables causalGraph
  let edges ← normalizeEdges causalGraph
  let normalizedVariables := withVariableFallback vars
  let normalizedEdges := withEdgeFallback edges
  let initialState ← getField (defaultUndef opts) "initialState"
  let anchoredVariables ← applyInitialStateAnchors normalizedVariables initialState
  let er ← runEulerSimulation anchoredVariables normalizedEdges (defaultUndef opts)
  return { loopsDetected := detectCycles normalizedEdges
           timeSeries := er.timeSeries
           newState := deriveFiveFactorState er.finalValues }

/-! ## Basic lemmas about the numeric helpers and the `Map` model -/

theorem clamp_lower (v lo hi : ℚ) : lo ≤ clamp v lo hi := le_max_left _ _

theorem clamp_upper (v lo hi : ℚ) (h : lo ≤ hi) : clamp v lo hi ≤ hi :=
  max_le h (min_le_left _ _)

theorem jsMapHas_nil (k : String) : jsMapHas [] k = false := rfl

theorem jsMapHas_cons (p : String × ℚ) (t : List (String × ℚ)) (k : String) :
    jsMapHas (p :: t) k = (decide (p.1 = k) || jsMapHas t k) := by
  simp [jsMapHas]

theorem jsMapGet_cons_pos (p : String × ℚ) (t : List (String × ℚ)) (k : String)
    (h : p.1 = k) : jsMapGet (p :: t) k = some p.2 := by
  simp [jsMapGet, List.find?_cons_of_pos, h]

theorem jsMapGet_cons_neg (p : String × ℚ) (t : List (String × ℚ)) (k : String)
    (h : ¬p.1 = k) : jsMapGet (p :: t) k = jsMapGet t k := by
  simp only [jsMapGet]
  rw [List.find?_cons_of_neg]
  simp [h]

theorem jsMapGet_set_self (m : List (String × ℚ)) (k : String) (v : ℚ) :
    jsMapGet (jsMapSet m k v) k = some v := by
  unfold jsMapSet
  split
  case isTrue hm =>
    induction m with
    | nil => simp [jsMapHas] at hm
    | cons p t ih =>
      by_cases hp : p.1 = k
      · rw [List.map_cons, if_pos hp]
        exact jsMapGet_cons_pos (k, v) _ k rfl
      · have ht : jsMapHas t k = true := by
          rw [jsMapHas_cons] at hm
          simpa [hp] using hm
        rw [List.map_cons, if_neg hp, jsMapGet_cons_neg _ _ _ hp]
        exact ih ht
  case isFalse hm =>
    induction m with
    | nil => exact jsMapGet_cons_pos (k, v) [] k rfl
    | cons p t ih =>
      have hp : ¬p.1 = k := by
        intro hk
        rw [jsMapHas_cons] at hm
        simp [hk] at hm
      have ht : ¬jsMapHas t k = true := by
        intro hk
        rw [jsMapHas_cons] at hm
        simp [hk] at hm
      rw [List.cons_append, jsMapGet_cons_neg _ _ _ hp]
      exact ih ht

theorem jsMapGet_map_replace (t : List (String × ℚ)) (k : String) (v : ℚ) (x : String)
    (h : x ≠ k) :
    jsMapGet (t.map (fun kv => if kv.1 = k then (k, v) else kv)) x = jsMapGet t x := by
  induction t with
  | nil => rfl
  | cons p t ih =>
    by_cases hp : p.1 = k
    · rw [List.map_cons, if_pos hp, jsMapGet_cons_neg (k, v) _ x (fun hk => h hk.symm),
        jsMapGet_cons_neg p _ x (by rw [hp]; exact fun hk => h hk.symm), ih]
    · by_cases hpx : p.1 = x
      · rw [List.map_cons, if_neg hp, jsMapGet_cons_pos p _ x hpx,
          jsMapGet_cons_pos p _ x hpx]
      · rw [List.map_cons, if_neg hp, jsMapGet_cons_neg p _ x hpx,
          jsMapGet_cons_neg p _ x hpx, ih]

theorem jsMapGet_append_single (t : List (String × ℚ)) (k : String) (v : ℚ) (x : String)
    (h : x ≠ k) : jsMapGet (t ++ [(k, v)]) x = jsMapGet t x := by
  induction t with
  | nil => exact jsMapGet_cons_neg (k, v) [] x (fun hk => h hk.symm)
  | cons p t ih =>
    by_cases hpx : p.1 = x
    · rw [List.cons_append, jsMapGet_cons_pos p _ x hpx, jsMapGet_cons_pos p _ x hpx]
    · rw [List.cons_append, jsMapGet_cons_neg p _ x hpx, jsMapGet_cons_neg p _ x hpx, ih]

theorem jsMapGet_set_ne (m : List (String × ℚ)) (k : String) (v : ℚ) (x : String)
    (h : x ≠ k) : jsMapGet (jsMapSet m k v) x = jsMapGet m x := by
  unfold jsMapSet
  split
  · exact jsMapGet_map_replace m k v x h
  · exact jsMapGet_append_single m k v x h

theorem mem_jsMapSet (m : List (String × ℚ)) (k : String) (v : ℚ) (p : String × ℚ)
    (hp : p ∈ jsMapSet m k v) : p ∈ m ∨ p = (k, v) := by
  unfold jsMapSet at hp
  split at hp
  · rw [List.mem_map] at hp
    obtain ⟨q, hq, hfq⟩ := hp
    by_cases hqk : q.1 = k
    · right; simp [hqk] at hfq; exact hfq.symm
    · left; simp [hqk] at hfq; rwa [← hfq]
  · rw [List.mem_append, List.mem_singleton] at hp
    exact hp

theorem jsMapGet_mem (m : List (String × ℚ)) (k : String) (q : ℚ)
    (h : jsMapGet m k = some q) : (k, q) ∈ m := by
  unfold jsMapGet at h
  obtain ⟨kv, hfind, hsnd⟩ := Option.map_eq_some'.mp h
  have hmem := List.mem_of_find?_eq_some hfind
  have hkey := List.find?_some hfind
  simp at hkey
  have : kv = (k, q) := by
    cases kv
    simp at hkey hsnd
    simp [hkey, hsnd]
  rwa [← this]

theorem jsMapHas_map_replace (m : List (String × ℚ)) (k : String) (v : ℚ) (x : String) :
    jsMapHas (m.map (fun kv => if kv.1 = k then (k, v) else kv)) x = jsMapHas m x := by
  induction m with
  | nil => rfl
  | cons p t ih =>
    rw [List.map_cons, jsMapHas_cons, jsMapHas_cons, ih]
    by_cases hp : p.1 = k
    · simp [hp]
    · simp [hp]

theorem jsMapHas_set (m : List (String × ℚ)) (k : String) (v : ℚ) (x : String) :
    jsMapHas (jsMapSet m k v) x = (jsMapHas m x || decide (x = k)) := by
  unfold jsMapSet
  split
  case isTrue hm =>
    rw [jsMapHas_map_replace]
    by_cases hx : x = k
    · subst hx
      rw [hm]
      simp
    · simp [hx]
  case isFalse hm =>
    unfold jsMapHas
    rw [List.any_append]
    simp [eq_comm]

/-- Keys of a fold of `Map.set` over a variable list: a key is present iff it
was present initially or is the id of one of the variables. -/
theorem jsMapHas_varFold (f : Variable → ℚ) (vs : List Variable) (x : String) :
    ∀ m, jsMapHas (vs.foldl (fun m v => jsMapSet m v.id (f v)) m) x =
      (jsMapHas m x || decide (x ∈ vs.map Variable.id)) := by
  induction vs with
  | nil =>
    intro m
    simp
  | cons v t ih =>
    intro m
    simp only [List.foldl_cons]
    rw [ih, jsMapHas_set]
    by_cases hx : x = v.id
    · simp [hx]
    · simp [hx]

/-- The keys of the seeded `values` map are exactly the variable ids. -/
theorem jsMapHas_initialValues (vs : List Variable) (x : String) :
    jsMapHas (initialValues vs) x = decide (x ∈ vs.map Variable.id) := by
  unfold initialValues
  rw [jsMapHas_varFold (fun v => clamp v.value NORMALIZED_RANGE.1 NORMALIZED_RANGE.2) vs x []]
  simp [jsMapHas]

/-- A key-preserving `map` does not change `Map.has`. -/
theorem jsMapHas_map_keep (g : String × ℚ → ℚ) (m : List (String × ℚ)) (x : String) :
    jsMapHas (m.map (fun kv => (kv.1, g kv))) x = jsMapHas m x := by
  induction m with
  | nil => rfl
  | cons p t ih => rw [List.map_cons, jsMapHas_cons, jsMapHas_cons, ih]

/-- An integration step never adds or removes keys of the `values` map. -/
theorem jsMapHas_eulerStep (es : List Edge) (baselines : List (String × ℚ))
    (dt damping : ℚ) (m : List (String × ℚ)) (x : String) :
    jsMapHas (eulerStep es baselines dt damping m) x = jsMapHas m x :=
  jsMapHas_map_keep (fun kv =>
    clamp (kv.2 + dt * (((jsMapGet (influenceDeltas es m) kv.1).getD 0) -
      damping * (kv.2 - ((jsMapGet baselines kv.1).getD 5))))
    NORMALIZED_RANGE.1 NORMALIZED_RANGE.2) m x

/-- Iterated integration steps never change the key set of `values`. -/
theorem jsMapHas_iterate (es : List Edge) (baselines : List (String × ℚ))
    (dt damping : ℚ) (m : List (String × ℚ)) (x : String) :
    ∀ i, jsMapHas ((eulerStep es baselines dt damping)^[i] m) x = jsMapHas m x := by
  intro i
  induction i with
  | zero => rfl
  | succ n ih => rw [Function.iterate_succ_apply', jsMapHas_eulerStep, ih]

/-- The plain-object snapshot copy is the identity as soon as the map has no
`"__proto__"` key. -/
theorem snapshotValues_of_has_false (m : List (String × ℚ))
    (h : jsMapHas m "__proto__" = false) : snapshotValues m = m := by
  unfold snapshotValues
  rw [List.filter_eq_self]
  intro p hp
  simp only [decide_eq_true_eq]
  intro heq
  have htrue : jsMapHas m "__proto__" = true := by
    unfold jsMapHas
    rw [List.any_eq_true]
    exact ⟨p, hp, by simp [heq]⟩
  rw [h] at htrue
  simp at htrue

/-- State invariant preserved by every step of a `foldl`. -/
theorem foldl_preserve {α β : Type _} (f : β → α → β) (P : β → Prop)
    (step : ∀ b a, P b → P (f b a)) :
    ∀ (l : List α) (b : β), P b → P (l.foldl f b) := by
  intro l
  induction l with
  | nil => intro b hb; exact hb
  | cons a t ih => intro b hb; exact ih (f b a) (step b a hb)

/-- Elements reached by a list-accumulating `foldl` either come from the
initial accumulator or satisfy the per-step production predicate. -/
theorem foldl_mem {α β : Type _} (f : List β → α → List β) (P : β → Prop)
    (step : ∀ acc a b, b ∈ f acc a → b ∈ acc ∨ P b) :
    ∀ (l : List α) (acc : List β) (b : β), b ∈ l.foldl f acc → b ∈ acc ∨ P b := by
  intro l
  induction l with
  | nil => intro acc b hb; exact Or.inl hb
  | cons a t ih =>
    intro acc b hb
    rcases ih (f acc a) b hb with h | h
    · exact step acc a b h
    · exact Or.inr h

/-! ## Invariants of the cycle detector -/

theorem stackIndexOf_lt_length (stack : List String) (x : String) (i : ℕ)
    (h : stackIndexOf stack x = some i) : i < stack.length := by
  induction stack generalizing i with
  | nil => simp [stackIndexOf] at h
  | cons y ys ih =>
    rw [stackIndexOf] at h
    by_cases hy : y = x
    · rw [if_pos hy] at h
      cases h
      simp
    · rw [if_neg hy] at h
      obtain ⟨j, hj, hij⟩ := Option.map_eq_some'.mp h
      have := ih j hj
      simp [← hij]
      omega

/-- The shape invariant of every record the detector stores: `type` and
`dominance` are the stated functions of the record's own `weights` (and of
the graph-wide `maxAbs`), and the record holds at least one edge weight. -/
def GoodRec (maxAbs : ℚ) (r : CycleRecord) : Prop :=
  r.type = (if 0 < signProduct r.weights then "Reinforcing" else "Balancing") ∧
  r.dominance = round (clamp ((avgAbsOf r.weights / maxAbs) * 100) 0 100) ∧
  r.weights ≠ []

theorem visitCycles_mem (edges : List Edge) (maxAbs : ℚ) :
    ∀ (fuel : ℕ) (cur : String) (stack : List String) (estack : List ℚ)
      (seen : List (String × CycleRecord)) (kv : String × CycleRecord),
      estack.length = stack.length →
      kv ∈ visitCycles edges maxAbs fuel cur stack estack seen →
      kv ∈ seen ∨ GoodRec maxAbs kv.2 := by
  intro fuel
  induction fuel with
  | zero =>
    intro cur stack estack seen kv _ h
    exact Or.inl h
  | succ n ih =>
    intro cur stack estack seen kv hlen hmem
    rw [visitCycles] at hmem
    revert hmem
    generalize outgoing edges cur = l
    induction l generalizing seen with
    | nil => intro h; exact Or.inl h
    | cons a t ihl =>
      intro hmem
      rw [List.foldl_cons] at hmem
      rcases ihl _ hmem with h | h
      · split at h
        · -- an edge closing a cycle: any stored record has the invariant shape
          rename_i idx hidx
          split at h
          · split at h
            · rename_i key hkey
              split at h
              · exact Or.inl h
              · rw [List.mem_append, List.mem_singleton] at h
                rcases h with h | h
                · exact Or.inl h
                · right
                  subst h
                  refine ⟨rfl, rfl, ?_⟩
                  have hidxlt := stackIndexOf_lt_length _ _ _ hidx
                  have hlen1 : (estack ++ [a.2]).length = (stack ++ [cur]).length := by
                    simp [hlen]
                  have hpos : ((estack ++ [a.2]).drop idx).length > 0 := by
                    rw [List.length_drop, hlen1]
                    omega
                  intro hnil
                  rw [show (mkCycleRecord maxAbs ((stack ++ [cur]).drop idx ++ [a.1])
                    ((estack ++ [a.2]).drop idx)).weights = (estack ++ [a.2]).drop idx
                    from rfl] at hnil
                  rw [hnil] at hpos
                  simp at hpos
            · exact Or.inl h
          · exact Or.inl h
        · -- a tree edge: recurse with one more entry on each stack
          refine ih a.1 (stack ++ [cur]) (estack ++ [a.2]) seen kv ?_ h
          simp [hlen]
      · exact Or.inr h

theorem detectCyclesKeyed_mem (edges : List Edge) (kv : String × CycleRecord)
    (h : kv ∈ detectCyclesKeyed edges) : GoodRec (maxAbsOf edges) kv.2 := by
  unfold detectCyclesKeyed at h
  split at h
  · simp at h
  · have hstep : ∀ (acc : List (String × CycleRecord)) (node : String)
        (b : String × CycleRecord),
        b ∈ visitCycles edges (maxAbsOf edges) (endpointNodes edges).length node [] [] acc →
        b ∈ acc ∨ GoodRec (maxAbsOf edges) b.2 := by
      intro acc node b hb
      exact visitCycles_mem edges (maxAbsOf edges) _ node [] [] acc b rfl hb
    rcases foldl_mem _ _ hstep (endpointNodes edges) [] kv h with h' | h'
    · simp at h'
    · exact h'

theorem detectCycles_mem (edges : List Edge) (r : CycleRecord)
    (h : r ∈ detectCycles edges) : GoodRec (maxAbsOf edges) r := by
  unfold detectCycles at h
  rw [List.mem_map] at h
  obtain ⟨kv, hkv, hr⟩ := h
  rw [← hr]
  exact detectCyclesKeyed_mem edges kv hkv

theorem visitCycles_keys_nodup (edges : List Edge) (maxAbs : ℚ) :
    ∀ (fuel : ℕ) (cur : String) (stack : List String) (estack : List ℚ)
      (seen : List (String × CycleRecord)),
      (seen.map Prod.fst).Nodup →
      ((visitCycles edges maxAbs fuel cur stack estack seen).map Prod.fst).Nodup := by
  intro fuel
  induction fuel with
  | zero => intro cur stack estack seen h; exact h
  | succ n ih =>
    intro cur stack estack seen hnd
    rw [visitCycles]
    generalize outgoing edges cur = l
    induction l generalizing seen with
    | nil => exact hnd
    | cons a t ihl =>
      rw [List.foldl_cons]
      refine ihl _ ?_
      split
      · split
        · split
          · rename_i key hkey
            split
            case isTrue => exact hnd
            case isFalse hany =>
              rw [List.map_append, List.nodup_append]
              refine ⟨hnd, by simp, ?_⟩
              intro x hx hx'
              simp only [List.map_cons, List.map_nil, List.mem_singleton] at hx'
              rw [hx'] at hx
              rw [List.mem_map] at hx
              obtain ⟨kv, hkv, hfst⟩ := hx
              have : seen.any (fun kv => kv.1 = key) = true :=
                List.any_eq_true.mpr ⟨kv, hkv, by simp [hfst]⟩
              exact hany this
          · exact hnd
        · exact hnd
      · exact ih a.1 (stack ++ [cur]) (estack ++ [a.2]) seen hnd

theorem detectCyclesKeyed_nodup (edges : List Edge) :
    ((detectCyclesKeyed edges).map Prod.fst).Nodup := by
  unfold detectCyclesKeyed
  split
  · simp
  · have h0 : (([] : List (String × CycleRecord)).map Prod.fst).Nodup := by simp
    exact foldl_preserve _ (fun seen => (seen.map Prod.fst).Nodup)
      (fun seen node h => visitCycles_keys_nodup edges (maxAbsOf edges) _ node [] [] seen h)
      (endpointNodes edges) [] h0

theorem round_bounds (x : ℚ) (h0 : 0 ≤ x) (h1 : x ≤ 100) :
    0 ≤ round x ∧ round x ≤ 100 := by
  rw [round_eq]
  constructor
  · refine Int.le_floor.mpr ?_
    push_cast
    linarith
  · have hlt : ⌊x + 1 / 2⌋ < 101 := by
      refine Int.floor_lt.mpr ?_
      push_cast
      linarith
    omega

theorem foldl_max_ge_init (f : Edge → ℚ) (l : List Edge) (acc : ℚ) :
    acc ≤ l.foldl (fun a e => Max.max a (f e)) acc := by
  induction l generalizing acc with
  | nil => exact le_refl acc
  | cons e t ih => exact le_trans (le_max_left acc (f e)) (ih (Max.max acc (f e)))

theorem foldl_max_ge_mem (f : Edge → ℚ) (l : List Edge) (acc : ℚ) (e : Edge)
    (he : e ∈ l) : f e ≤ l.foldl (fun a x => Max.max a (f x)) acc := by
  induction l generalizing acc with
  | nil => simp at he
  | cons a t ih =>
    rw [List.mem_cons] at he
    rcases he with rfl | he
    · rw [List.foldl_cons]
      exact le_trans (le_max_right acc (f e)) (foldl_max_ge_init f t _)
    · rw [List.foldl_cons]
      exact ih _ he

/-- Concrete evaluation of the detector on the single self-loop
`{from:"X", to:"X", weight:-0.5}`. -/
theorem selfLoopEval :
    detectCycles [⟨"X", "X", -0.5⟩] =
    [{ type := "Balancing", dominance := 100, nodes := ["X"], chain := "X → X",
       weights := [-0.5] }] := by
  norm_num [detectCycles, detectCyclesKeyed, endpointNodes, visitCycles, outgoing,
    stackIndexOf, canonicalizeCycle, minRotation, listLexLt, strLtB, charListLt,
    mkCycleRecord, jsSign, signProduct, avgAbsOf, maxAbsOf, clamp, round_eq]
  rfl

/-! ## C7 -/

/-- C7: when the edge set is the single self-loop `{from:"X", to:"X",
weight:-0.5}`, `detectCycles` returns exactly one record — a `Balancing`
1-node cycle over `["X"]` with dominance 100 (its chain string and weight list
are pinned down as well). -/
theorem selfLoop_cycle_record :
    detectCycles [⟨"X", "X", -0.5⟩] =
    [{ type := "Balancing", dominance := 100, nodes := ["X"], chain := "X → X",
       weights := [-0.5] }] := selfLoopEval

/-! ## C8 -/

/-- C8: every retained cycle's `dominance` is `round` of the clamped-to-[0,100]
ratio `mean |weight| over the cycle's own edges ÷ maxAbs`, scaled by 100,
where `maxAbs` bounds `|weight|` of **every** edge of the whole graph and
equals the graph-wide maximum absolute weight whenever that maximum is
nonzero (the source substitutes 1 for a zero maximum, in which case every
cycle mean is 0 too); the result always lies in [0, 100]. -/
theorem dominance_normalized (edges : List Edge) (r : CycleRecord)
    (h : r ∈ detectCycles edges) :
    r.dominance = round (clamp ((avgAbsOf r.weights / maxAbsOf edges) * 100) 0 100) ∧
    (0 ≤ r.dominance ∧ r.dominance ≤ 100) ∧
    (∀ e ∈ edges, |e.weight| ≤ maxAbsOf edges) ∧
    (edges.foldl (fun acc e => Max.max acc |e.weight|) 0 ≠ 0 →
      maxAbsOf edges = edges.foldl (fun acc e => Max.max acc |e.weight|) 0) := by
  obtain ⟨-, hdom, -⟩ := detectCycles_mem edges r h
  refine ⟨hdom, ?_, ?_, ?_⟩
  · rw [hdom]
    exact round_bounds _ (clamp_lower _ _ _) (clamp_upper _ _ _ (by norm_num))
  · intro e he
    unfold maxAbsOf
    split
    case isTrue hz =>
      have := foldl_max_ge_mem (fun e => |e.weight|) edges 0 e he
      rw [hz] at this
      calc |e.weight| ≤ 0 := this
        _ ≤ 1 := by norm_num
    case isFalse hz => exact foldl_max_ge_mem (fun e => |e.weight|) edges 0 e he
  · intro hne
    unfold maxAbsOf
    rw [if_neg hne]

/-- Witness for C8 at the concrete self-loop graph. -/
theorem dominance_normalized_witness :
    CycleRecord.mk "Balancing" 100 ["X"] "X → X" [-0.5] ∈
      detectCycles [⟨"X", "X", -0.5⟩] ∧
    (100 : ℤ) =
      round (clamp ((avgAbsOf [-0.5] / maxAbsOf [⟨"X", "X", -0.5⟩]) * 100) 0 100) := by
  have hm : CycleRecord.mk "Balancing" 100 ["X"] "X → X" [-0.5] ∈
      detectCycles [⟨"X", "X", -0.5⟩] := by
    rw [selfLoopEval]
    exact List.mem_singleton.mpr rfl
  have h := dominance_normalized [⟨"X", "X", -0.5⟩] _ hm
  exact ⟨hm, h.1⟩

/-! ## The template's loops -/

set_option maxRecDepth 20000 in
/-- The cycle detector on the 12-edge template: five simple loops, listed with
their canonical keys, node lists and weight lists (pure structural
computation). -/
theorem defaultEdges_keyed_proj :
    (detectCyclesKeyed defaultEdges).map (fun kv => (kv.1, kv.2.nodes, kv.2.weights)) =
    [("HPA->Inflammation->Neurodegeneration->Withdrawal->Isolation->HPA",
      ["Isolation", "HPA", "Inflammation", "Neurodegeneration", "Withdrawal"],
      [0.65, 0.7, 0.55, 0.42, 0.58]),
     ("Belonging->Isolation->Meaning->Belonging",
      ["Isolation", "Meaning", "Belonging"],
      [-0.35, 0.6, -0.62]),
     ("Belonging->VagalTone->HPA->Inflammation->Neurodegeneration->Withdrawal->Isolation->Meaning->Belonging",
      ["Isolation", "Meaning", "Belonging", "VagalTone", "HPA", "Inflammation",
       "Neurodegeneration", "Withdrawal"],
      [-0.35, 0.6, 0.57, -0.68, 0.7, 0.55, 0.42, 0.58]),
     ("Belonging->VagalTone->Meaning->Belonging",
      ["Meaning", "Belonging", "VagalTone"],
      [0.6, 0.57, 0.38]),
     ("Isolation->Meaning->Isolation",
      ["Isolation", "Meaning"],
      [-0.35, -0.45])] := by rfl

/-- Every loop of the template is Reinforcing: each of the five cycles crosses
an even number of negative edges. -/
theorem defaultEdges_loop_types :
    (detectCycles defaultEdges).map (fun r => (r.type, r.nodes)) =
    [("Reinforcing", ["Isolation", "HPA", "Inflammation", "Neurodegeneration", "Withdrawal"]),
     ("Reinforcing", ["Isolation", "Meaning", "Belonging"]),
     ("Reinforcing", ["Isolation", "Meaning", "Belonging", "VagalTone", "HPA",
       "Inflammation", "Neurodegeneration", "Withdrawal"]),
     ("Reinforcing", ["Meaning", "Belonging", "VagalTone"]),
     ("Reinforcing", ["Isolation", "Meaning"])] := by
  have hstep :
      (detectCycles defaultEdges).map (fun r => (r.type, r.nodes)) =
      ((detectCyclesKeyed defaultEdges).map
        (fun kv => (kv.1, kv.2.nodes, kv.2.weights))).map
        (fun t => ((if 0 < signProduct t.2.2 then "Reinforcing" else "Balancing"), t.2.1)) := by
    unfold detectCycles
    rw [List.map_map, List.map_map]
    refine List.map_congr_left ?_
    intro kv hkv
    have hg := detectCyclesKeyed_mem defaultEdges kv hkv
    simp only [Function.comp_apply]
    rw [hg.1]
  rw [hstep, defaultEdges_keyed_proj]
  norm_num [signProduct, jsSign]

/-! ## C1 -/

set_option maxRecDepth 40000 in
/-- C1 counterexample.  First input: `{variables: [], edges: [{from:"A",
to:"B", weight:1}]}` — its normalized variable list is empty, so by the claim
the *entire* graph (edges included) should be replaced by the template; in
fact the supplied edge list is kept: the simulation reports **no** loops,
while the template's edge set has loops.  Second input: `{}` — the loops are
the template's and none of them is `Balancing`, contradicting the claimed
"at least one Balancing record". -/
theorem template_fallback_counterexample :
    (normalizeVariables (JSValue.obj [("variables", .arr []),
      ("edges", .arr [.obj [("from", .str "A"), ("to", .str "B"),
        ("weight", .num 1)]])]) = .ok []) ∧
    ((runCausalSimulation (JSValue.obj [("variables", .arr []),
      ("edges", .arr [.obj [("from", .str "A"), ("to", .str "B"),
        ("weight", .num 1)]])]) (.obj [])).map (fun out => out.loopsDetected) =
      .ok []) ∧
    detectCycles defaultEdges ≠ [] ∧
    ((runCausalSimulation (.obj []) (.obj [])).map (fun out => out.loopsDetected) =
      .ok (detectCycles defaultEdges)) ∧
    (∀ r ∈ detectCycles defaultEdges, r.type ≠ "Balancing") := by
  refine ⟨rfl, rfl, ?_, rfl, ?_⟩
  · intro h
    have := defaultEdges_loop_types
    rw [h] at this
    simp at this
  · intro r hr hb
    have hmem := List.mem_map_of_mem (fun r => (r.type, r.nodes)) hr
    rw [defaultEdges_loop_types] at hmem
    simp [hb] at hmem

set_option maxRecDepth 40000 in
/-- C1 amended: each empty normalized list is replaced **independently** by
the corresponding template part (the variable set and the edge list do not
fall back together); for `graphDescription = {}` both are empty, the engine
operates on exactly the template, and the returned `loopsDetected` is
non-empty with at least one `Reinforcing` record (indeed all five template
loops are Reinforcing; none is Balancing). -/
theorem template_fallback_independent :
    (∀ vs : List Variable, vs = [] → withVariableFallback vs = defaultVariables) ∧
    (∀ es : List Edge, es = [] → withEdgeFallback es = defaultEdges) ∧
    (∀ vs : List Variable, vs ≠ [] → withVariableFallback vs = vs) ∧
    (∀ es : List Edge, es ≠ [] → withEdgeFallback es = es) ∧
    (normalizeVariables (.obj []) = .ok [] ∧ normalizeEdges (.obj []) = .ok []) ∧
    ((runCausalSimulation (.obj []) (.obj [])).map (fun out => out.loopsDetected) =
      .ok (detectCycles defaultEdges)) ∧
    ((detectCycles defaultEdges).map (fun r => (r.type, r.nodes)) =
      [("Reinforcing", ["Isolation", "HPA", "Inflammation", "Neurodegeneration",
        "Withdrawal"]),
       ("Reinforcing", ["Isolation", "Meaning", "Belonging"]),
       ("Reinforcing", ["Isolation", "Meaning", "Belonging", "VagalTone", "HPA",
        "Inflammation", "Neurodegeneration", "Withdrawal"]),
       ("Reinforcing", ["Meaning", "Belonging", "VagalTone"]),
       ("Reinforcing", ["Isolation", "Meaning"])]) := by
  refine ⟨?_, ?_, ?_, ?_, ⟨rfl, rfl⟩, rfl, defaultEdges_loop_types⟩
  · intro vs h
    rw [h]
    rfl
  · intro es h
    rw [h]
    rfl
  · intro vs h
    unfold withVariableFallback
    rw [if_neg (by simpa using h)]
  · intro es h
    unfold withEdgeFallback
    rw [if_neg (by simpa using h)]

/-- Witness for the amended C1 at concrete inputs. -/
theorem template_fallback_independent_witness :
    withVariableFallback [] = defaultVariables ∧
    withEdgeFallback [⟨"A", "B", 1⟩] = [⟨"A", "B", 1⟩] := by
  exact ⟨template_fallback_independent.1 [] rfl,
    template_fallback_independent.2.2.2.1 [⟨"A", "B", 1⟩] (by simp)⟩

/-! ## C3 -/

theorem isNull_defaultUndef (v : JSValue) (h : isNull v = false) :
    isNull (defaultUndef v) = false := by
  unfold defaultUndef
  split
  · rfl
  · exact h

theorem getField_defaultUndef_ok (v : JSValue) (hn : isNull v = false) (name : String) :
    ∃ w, getField (defaultUndef v) name = .ok w := by
  unfold defaultUndef
  split
  · exact ⟨getFieldP (.obj []) name, rfl⟩
  case isFalse hu =>
    cases v with
    | null => simp [isNull] at hn
    | undefined => simp [isUndef] at hu
    | bool b => exact ⟨_, rfl⟩
    | num q => exact ⟨_, rfl⟩
    | nan => exact ⟨_, rfl⟩
    | str s => exact ⟨_, rfl⟩
    | arr items => exact ⟨_, rfl⟩
    | obj fields => exact ⟨_, rfl⟩

theorem defaultUndef_defaultUndef (v : JSValue) :
    defaultUndef (defaultUndef v) = defaultUndef v := by
  cases v <;> rfl

theorem getField_defaultUndef_eq (v : JSValue) (hn : isNull v = false) (name : String) :
    getField (defaultUndef v) name = .ok (getFieldP (defaultUndef v) name) := by
  unfold defaultUndef
  split
  · rfl
  case isFalse hu =>
    cases v with
    | null => simp [isNull] at hn
    | undefined => simp [isUndef] at hu
    | bool b => rfl
    | num q => rfl
    | nan => rfl
    | str s => rfl
    | arr items => rfl
    | obj fields => rfl

/-- Normal form of a non-`null`-options integrator run. -/
theorem runEulerSimulation_eq (vs : List Variable) (es : List Edge) (opts : JSValue)
    (ho : isNull opts = false) :
    runEulerSimulation vs es opts = .ok
      { timeSeries := (List.range (stepsOf (defaultUndef opts) + 1)).map
          (fun i => ⟨i, snapshotValues ((eulerStep es (baselineValues vs)
            (dtOf (defaultUndef opts)) (dampingOf (defaultUndef opts)))^[i]
            (initialValues vs))⟩)
        finalValues := (eulerStep es (baselineValues vs) (dtOf (defaultUndef opts))
          (dampingOf (defaultUndef opts)))^[stepsOf (defaultUndef opts)]
          (initialValues vs) } := by
  simp only [runEulerSimulation]
  rw [if_neg (by simp [ho])]

/-- Normal form of a full run whose inputs are non-`null` and whose anchoring
step succeeds (`.ok avs`). -/
theorem runCausalSimulation_eq (g opts : JSValue) (avs : List Variable)
    (hg : isNull g = false) (ho : isNull opts = false)
    (hanch : applyInitialStateAnchors
      (withVariableFallback (normalizeVariablesPure (defaultUndef g)))
      (getFieldP (defaultUndef opts) "initialState") = .ok avs) :
    runCausalSimulation g opts = .ok
      { loopsDetected := detectCycles (withEdgeFallback (normalizeEdgesPure (defaultUndef g)))
        timeSeries := (List.range (stepsOf (defaultUndef opts) + 1)).map
          (fun i => ⟨i, snapshotValues ((eulerStep
            (withEdgeFallback (normalizeEdgesPure (defaultUndef g)))
            (baselineValues avs)
            (dtOf (defaultUndef opts)) (dampingOf (defaultUndef opts)))^[i]
            (initialValues avs))⟩)
        newState := deriveFiveFactorState
          ((eulerStep (withEdgeFallback (normalizeEdgesPure (defaultUndef g)))
            (baselineValues avs)
            (dtOf (defaultUndef opts)) (dampingOf (defaultUndef opts)))^[stepsOf (defaultUndef opts)]
            (initialValues avs)) } := by
  have hnv : normalizeVariables g = .ok (normalizeVariablesPure (defaultUndef g)) := by
    unfold normalizeVariables
    rw [if_neg (by simp [hg])]
  have hne : normalizeEdges g = .ok (normalizeEdgesPure (defaultUndef g)) := by
    unfold normalizeEdges
    rw [if_neg (by simp [hg])]
  have hgf := getField_defaultUndef_eq opts ho "initialState"
  have her := runEulerSimulation_eq avs
    (withEdgeFallback (normalizeEdgesPure (defaultUndef g))) (defaultUndef opts)
    (isNull_defaultUndef opts ho)
  rw [defaultUndef_defaultUndef] at her
  unfold runCausalSimulation
  simp only [hnv, hne, hgf, hanch, her, bind, Except.bind]
  rfl

/-! ## Anchoring success and failure -/

/-- `anchorVariable` throws nothing but `TypeError`. -/
theorem anchorVariable_error_shape (init : JSValue) (v : Variable) (e : String)
    (h : anchorVariable init v = .error e) : e = "TypeError" := by
  unfold anchorVariable at h
  split at h
  · split at h
    · simp at h
    · split at h
      · simp at h
      · simp at h
  · split at h
    · split at h
      · simp at h
      · simp only [Except.error.injEq] at h
        exact h.symm
    · simp at h

/-- One throwing variable anywhere in the list makes the whole
`variables.map` throw `TypeError`. -/
theorem anchorAll_error_of_mem (init : JSValue) (vs : List Variable) (v : Variable)
    (hv : v ∈ vs) (herr : anchorVariable init v = .error "TypeError") :
    anchorAll init vs = .error "TypeError" := by
  induction vs with
  | nil => simp at hv
  | cons u t ih =>
    rcases List.mem_cons.mp hv with rfl | ht
    · simp only [anchorAll, herr, bind, Except.bind]
    · rcases hu : anchorVariable init u with e | w
      · have he := anchorVariable_error_shape init u e hu
        subst he
        simp only [anchorAll, hu, bind, Except.bind]
      · simp only [anchorAll, hu, bind, Except.bind]
        rw [ih ht]

/-- A successful `variables.map` anchors pointwise, in order. -/
theorem anchorAll_ok_get (init : JSValue) :
    ∀ (vs ws : List Variable), anchorAll init vs = .ok ws →
      ws.length = vs.length ∧
      ∀ (i : ℕ) (v : Variable), vs[i]? = some v →
        ∃ w, ws[i]? = some w ∧ anchorVariable init v = .ok w := by
  intro vs
  induction vs with
  | nil =>
    intro ws h
    simp only [anchorAll, pure, Except.pure, Except.ok.injEq] at h
    subst h
    refine ⟨rfl, ?_⟩
    intro i v hv
    simp at hv
  | cons u t ih =>
    intro ws h
    simp only [anchorAll] at h
    rcases hu : anchorVariable init u with e | w
    · rw [hu] at h
      simp [bind, Except.bind] at h
    rw [hu] at h
    simp only [bind, Except.bind] at h
    rcases ht : anchorAll init t with e | ts
    · rw [ht] at h
      simp [bind, Except.bind] at h
    rw [ht] at h
    simp only [bind, Except.bind, pure, Except.pure, Except.ok.injEq] at h
    subst h
    obtain ⟨hlen, hget⟩ := ih ts ht
    refine ⟨by simp [hlen], ?_⟩
    intro i v hv
    cases i with
    | zero =>
      simp only [List.getElem?_cons_zero, Option.some.injEq] at hv
      subst hv
      exact ⟨w, by simp, hu⟩
    | succ n =>
      simp only [List.getElem?_cons_succ] at hv ⊢
      exact hget n v hv

/-! ## C3 theorems -/

/-- A variable whose value and baseline both lie in `[0, 10]`. -/
def VarInRange (v : Variable) : Prop :=
  0 ≤ v.value ∧ v.value ≤ 10 ∧ 0 ≤ v.baseline ∧ v.baseline ≤ 10

theorem clamp_range01 (x : ℚ) :
    0 ≤ clamp x NORMALIZED_RANGE.1 NORMALIZED_RANGE.2 ∧
    clamp x NORMALIZED_RANGE.1 NORMALIZED_RANGE.2 ≤ 10 := by
  constructor
  · simpa [NORMALIZED_RANGE] using clamp_lower x NORMALIZED_RANGE.1 NORMALIZED_RANGE.2
  · simpa [NORMALIZED_RANGE] using
      clamp_upper x NORMALIZED_RANGE.1 NORMALIZED_RANGE.2 (by norm_num [NORMALIZED_RANGE])

theorem normalizeVariableItem_range (item : JSValue) (v : Variable)
    (h : normalizeVariableItem item = some v) : VarInRange v := by
  unfold normalizeVariableItem at h
  split at h
  · simp at h
  · split at h
    · cases h
      refine ⟨by norm_num, by norm_num, by norm_num, by norm_num⟩
    · split at h
      · split at h
        · simp at h
        · cases h
          exact ⟨(clamp_range01 _).1, (clamp_range01 _).2, (clamp_range01 _).1,
            (clamp_range01 _).2⟩
      · simp at h

theorem normalizeVariableEntry_range (id : String) (item : JSValue) (v : Variable)
    (h : normalizeVariableEntry id item = some v) : VarInRange v := by
  unfold normalizeVariableEntry at h
  split at h
  · simp at h
  · split at h
    · cases h
      exact ⟨(clamp_range01 _).1, (clamp_range01 _).2, (clamp_range01 _).1,
        (clamp_range01 _).2⟩
    · cases h
      exact ⟨(clamp_range01 _).1, (clamp_range01 _).2, (clamp_range01 _).1,
        (clamp_range01 _).2⟩

theorem normalizeVariablesPure_range (g : JSValue) (v : Variable)
    (hv : v ∈ normalizeVariablesPure g) : VarInRange v := by
  unfold normalizeVariablesPure at hv
  split at hv
  · rw [List.mem_filterMap] at hv
    obtain ⟨a, -, ha⟩ := hv
    exact normalizeVariableItem_range a v ha
  · rw [List.mem_filterMap] at hv
    obtain ⟨kv, -, hkv⟩ := hv
    exact normalizeVariableEntry_range kv.1 kv.2 v hkv
  · simp at hv

theorem anchorVariable_range (init : JSValue) (v w : Variable) (hv : VarInRange v)
    (h : anchorVariable init v = .ok w) : VarInRange w := by
  unfold anchorVariable at h
  split at h
  · split at h
    · simp only [Except.ok.injEq] at h
      rw [← h]
      exact hv
    · split at h
      · simp only [Except.ok.injEq] at h
        rw [← h]
        exact hv
      · simp only [Except.ok.injEq] at h
        rw [← h]
        exact ⟨(clamp_range01 _).1, (clamp_range01 _).2, (clamp_range01 _).1,
          (clamp_range01 _).2⟩
  · split at h
    · split at h
      · simp only [Except.ok.injEq] at h
        rw [← h]
        exact hv
      · simp at h
    · simp only [Except.ok.injEq] at h
      rw [← h]
      exact hv

theorem anchorAll_range (init : JSValue) :
    ∀ (vs ws : List Variable), anchorAll init vs = .ok ws →
      (∀ v ∈ vs, VarInRange v) → ∀ w ∈ ws, VarInRange w := by
  intro vs
  induction vs with
  | nil =>
    intro ws h _
    simp only [anchorAll, pure, Except.pure, Except.ok.injEq] at h
    subst h
    simp
  | cons v t ih =>
    intro ws h hvs
    simp only [anchorAll] at h
    rcases hu : anchorVariable init v with e | w
    · rw [hu] at h
      simp [bind, Except.bind] at h
    rw [hu] at h
    simp only [bind, Except.bind] at h
    rcases ht : anchorAll init t with e | ts
    · rw [ht] at h
      simp [bind, Except.bind] at h
    rw [ht] at h
    simp only [bind, Except.bind, pure, Except.pure, Except.ok.injEq] at h
    subst h
    intro u hu2
    rcases List.mem_cons.mp hu2 with heq | hut
    · rw [heq]
      exact anchorVariable_range init v w (hvs v (by simp)) hu
    · exact ih ts ht (fun x hx => hvs x (by simp [hx])) u hut

theorem applyInitialStateAnchors_range (vs : List Variable) (init : JSValue)
    (ws : List Variable) (h : applyInitialStateAnchors vs init = .ok ws)
    (hvs : ∀ v ∈ vs, VarInRange v) : ∀ w ∈ ws, VarInRange w := by
  unfold applyInitialStateAnchors at h
  split at h
  · simp only [Except.ok.injEq] at h
    subst h
    exact hvs
  · exact anchorAll_range init vs ws h hvs

theorem initialValues_range (vs : List Variable) :
    ∀ p ∈ initialValues vs, 0 ≤ p.2 ∧ p.2 ≤ 10 := by
  unfold initialValues
  refine foldl_preserve _
    (fun (m : List (String × ℚ)) => ∀ p ∈ m, 0 ≤ p.2 ∧ p.2 ≤ 10) ?_ vs [] (by simp)
  intro m v hm p hp
  rcases mem_jsMapSet m v.id _ p hp with h | h
  · exact hm p h
  · rw [h]
    exact clamp_range01 _

theorem eulerStep_range (es : List Edge) (baselines : List (String × ℚ))
    (dt damping : ℚ) (m : List (String × ℚ)) :
    ∀ p ∈ eulerStep es baselines dt damping m, 0 ≤ p.2 ∧ p.2 ≤ 10 := by
  intro p hp
  unfold eulerStep at hp
  rw [List.mem_map] at hp
  obtain ⟨q, -, hq⟩ := hp
  rw [← hq]
  exact clamp_range01 _

theorem iterate_values_range (es : List Edge) (baselines : List (String × ℚ))
    (dt damping : ℚ) (vs : List Variable) (i : ℕ) :
    ∀ p ∈ (eulerStep es baselines dt damping)^[i] (initialValues vs),
      0 ≤ p.2 ∧ p.2 ≤ 10 := by
  induction i with
  | zero => simpa using initialValues_range vs
  | succ n ih =>
    rw [Function.iterate_succ_apply']
    exact eulerStep_range es baselines dt damping _

theorem aggregate_range (m : List (String × ℚ)) (ps ns : List String) :
    1 ≤ aggregate m ps ns ∧ aggregate m ps ns ≤ 10 := by
  unfold aggregate
  exact ⟨clamp_lower _ _ _, clamp_upper _ _ _ (by norm_num)⟩

/-- The five-factor projection always lands in `[1, 10]`, whatever the final
values are. -/
def FiveInRange (st : FiveFactorState) : Prop :=
  (1 ≤ st.vitality ∧ st.vitality ≤ 10) ∧
  (1 ≤ st.cognition ∧ st.cognition ≤ 10) ∧
  (1 ≤ st.emotion ∧ st.emotion ≤ 10) ∧
  (1 ≤ st.adaptability ∧ st.adaptability ≤ 10) ∧
  (1 ≤ st.meaning ∧ st.meaning ≤ 10)

theorem deriveFiveFactorState_range (m : List (String × ℚ)) :
    FiveInRange (deriveFiveFactorState m) :=
  ⟨aggregate_range m _ _, aggregate_range m _ _, aggregate_range m _ _,
    aggregate_range m _ _, aggregate_range m _ _⟩

theorem runEulerSimulation_range (vs : List Variable) (es : List Edge)
    (opts : JSValue) (er : EulerResult) (h : runEulerSimulation vs es opts = .ok er) :
    ∀ s ∈ er.timeSeries, ∀ p ∈ s.values, 0 ≤ p.2 ∧ p.2 ≤ 10 := by
  unfold runEulerSimulation at h
  split at h
  · simp at h
  · cases h
    intro s hs p hp
    simp only [List.mem_map, List.mem_range] at hs
    obtain ⟨i, -, hi⟩ := hs
    rw [← hi] at hp
    simp only [snapshotValues, List.mem_filter] at hp
    exact iterate_values_range es _ _ _ vs i p hp.1

/-- C2: the range invariant.  (1) Every variable produced by normalization has
value and baseline in `[0, 10]`; (2) a successful anchoring step preserves
that range; (3) every snapshot value of any integrator run lies in `[0, 10]`;
(4) for every successful `runCausalSimulation`, every value of every returned
snapshot lies in `[0, 10]` and every field of the returned `newState` lies in
`[1, 10]`. -/
theorem range_invariant :
    (∀ (g : JSValue) (vs : List Variable), normalizeVariables g = .ok vs →
      ∀ v ∈ vs, 0 ≤ v.value ∧ v.value ≤ 10 ∧ 0 ≤ v.baseline ∧ v.baseline ≤ 10) ∧
    (∀ (vs : List Variable) (init : JSValue) (ws : List Variable),
      applyInitialStateAnchors vs init = .ok ws →
      (∀ v ∈ vs, 0 ≤ v.value ∧ v.value ≤ 10 ∧ 0 ≤ v.baseline ∧ v.baseline ≤ 10) →
      ∀ v ∈ ws, 0 ≤ v.value ∧ v.value ≤ 10 ∧ 0 ≤ v.baseline ∧ v.baseline ≤ 10) ∧
    (∀ (vs : List Variable) (es : List Edge) (opts : JSValue) (er : EulerResult),
      runEulerSimulation vs es opts = .ok er →
      ∀ s ∈ er.timeSeries, ∀ p ∈ s.values, 0 ≤ p.2 ∧ p.2 ≤ 10) ∧
    (∀ (g opts : JSValue) (out : SimOutput), runCausalSimulation g opts = .ok out →
      (∀ s ∈ out.timeSeries, ∀ p ∈ s.values, 0 ≤ p.2 ∧ p.2 ≤ 10) ∧
      FiveInRange out.newState) := by
  refine ⟨?_, ?_, runEulerSimulation_range, ?_⟩
  · intro g vs h v hv
    unfold normalizeVariables at h
    split at h
    · simp at h
    · cases h
      exact normalizeVariablesPure_range (defaultUndef g) v hv
  · intro vs init ws h hvs v hv
    exact applyInitialStateAnchors_range vs init ws h hvs v hv
  · intro g opts out hrun
    unfold runCausalSimulation at hrun
    rcases hnv : normalizeVariables g with s | vs
    · rw [hnv] at hrun
      simp [bind, Except.bind] at hrun
    rw [hnv] at hrun
    simp only [bind, Except.bind] at hrun
    rcases hne : normalizeEdges g with s | es
    · rw [hne] at hrun
      simp [bind, Except.bind] at hrun
    rw [hne] at hrun
    simp only [bind, Except.bind] at hrun
    rcases hgf : getField (defaultUndef opts) "initialState" with s | w
    · rw [hgf] at hrun
      simp [bind, Except.bind] at hrun
    rw [hgf] at hrun
    simp only [bind, Except.bind] at hrun
    rcases hanch : applyInitialStateAnchors (withVariableFallback vs) w with s | avs
    · rw [hanch] at hrun
      simp [bind, Except.bind] at hrun
    rw [hanch] at hrun
    simp only [bind, Except.bind] at hrun
    rcases her : runEulerSimulation avs
        (withEdgeFallback es) (defaultUndef opts) with s | er
    · rw [her] at hrun
      simp [bind, Except.bind] at hrun
    rw [her] at hrun
    simp only [bind, Except.bind, pure, Except.pure, Except.ok.injEq] at hrun
    rw [← hrun]
    exact ⟨runEulerSimulation_range _ _ _ er her, deriveFiveFactorState_range _⟩

/-- Witness for C2 at concrete inputs. -/
theorem range_invariant_witness :
    (normalizeVariables (.obj [("variables", .arr [.str "X"])]) = .ok [⟨"X", 5, 5⟩]) ∧
    (0 ≤ (Variable.mk "X" 5 5).value ∧ (Variable.mk "X" 5 5).value ≤ 10 ∧
      0 ≤ (Variable.mk "X" 5 5).baseline ∧ (Variable.mk "X" 5 5).baseline ≤ 10) := by
  refine ⟨rfl, ?_⟩
  exact range_invariant.1 (.obj [("variables", .arr [.str "X"])]) [⟨"X", 5, 5⟩] rfl
    ⟨"X", 5, 5⟩ (List.mem_singleton.mpr rfl)

/-! ## C4 -/

/-- C4 counterexample: snapshot 0 does **not** always equal the anchored
initial condition.  With the single variable `{id: "__proto__", value: 7}`
(and a self-referential edge, so the supplied edge list is kept), the seeded
`values` map is `__proto__ ↦ 7`, yet the plain-object snapshot copy silently
drops a `"__proto__"` key, so every recorded snapshot — snapshot 0
included — is the empty mapping. -/
theorem proto_snapshot_counterexample :
    ∃ out, runCausalSimulation
        (.obj [("variables", .arr [.obj [("id", .str "__proto__"), ("value", .num 7)]]),
          ("edges", .arr [.obj [("from", .str "__proto__"), ("to", .str "__proto__"),
            ("weight", .num 1)]])])
        (.obj []) = .ok out ∧
      applyInitialStateAnchors (withVariableFallback (normalizeVariablesPure
        (defaultUndef (.obj [("variables", .arr [.obj [("id", .str "__proto__"),
          ("value", .num 7)]]),
          ("edges", .arr [.obj [("from", .str "__proto__"), ("to", .str "__proto__"),
            ("weight", .num 1)]])]))))
        (getFieldP (defaultUndef (.obj [])) "initialState") = .ok [⟨"__proto__", 7, 7⟩] ∧
      initialValues [⟨"__proto__", 7, 7⟩] = [("__proto__", 7)] ∧
      out.timeSeries[0]? = some ⟨0, []⟩ := by
  refine ⟨_, runCausalSimulation_eq _ (.obj []) [⟨"__proto__", 7, 7⟩] rfl rfl rfl,
    rfl, rfl, ?_⟩
  rw [List.getElem?_map, List.getElem?_range (Nat.succ_pos _)]
  rfl

/-- C4 corrected: with non-`null` inputs whose anchoring step succeeds
(`.ok avs`) and `steps` a positive integer `N` (a finite number of
denominator 1 and positive numerator), the returned `timeSeries` has exactly
`N + 1` snapshots and the snapshot at position `i` carries step field `i`.
Snapshot 0 records the anchored initial condition **through the plain-object
snapshot copy**, which drops a variable named `__proto__`; when no variable
has that id — every ordinary graph — snapshot 0 equals the anchored seeded
value map exactly. -/
theorem timeSeries_snapshot_count (g opts : JSValue) (q : ℚ) (avs : List Variable)
    (hg : isNull g = false) (ho : isNull opts = false)
    (hanch : applyInitialStateAnchors
      (withVariableFallback (normalizeVariablesPure (defaultUndef g)))
      (getFieldP (defaultUndef opts) "initialState") = .ok avs)
    (hq : getFieldP (defaultUndef opts) "steps" = .num q)
    (hden : q.den = 1) (hpos : 0 < q.num) :
    ∃ out, runCausalSimulation g opts = .ok out ∧
      out.timeSeries.length = q.num.toNat + 1 ∧
      (∀ (i : ℕ) (s : Snapshot), out.timeSeries[i]? = some s → s.step = i) ∧
      out.timeSeries[0]? = some ⟨0, snapshotValues (initialValues avs)⟩ ∧
      ("__proto__" ∉ avs.map Variable.id →
        out.timeSeries[0]? = some ⟨0, initialValues avs⟩) := by
  have hsteps : stepsOf (defaultUndef opts) = q.num.toNat := by
    unfold stepsOf
    rw [hq]
    simp [hden, hpos]
  refine ⟨_, runCausalSimulation_eq g opts avs hg ho hanch, ?_, ?_, ?_, ?_⟩
  · simp [hsteps]
  · intro i s hs
    rw [List.getElem?_map] at hs
    rcases Nat.lt_or_ge i (stepsOf (defaultUndef opts) + 1) with hi | hi
    · rw [List.getElem?_range hi] at hs
      simp only [Option.map_some'] at hs
      cases hs
      rfl
    · rw [List.getElem?_eq_none (by simpa using hi)] at hs
      simp at hs
  · rw [List.getElem?_map, List.getElem?_range (by omega)]
    simp
  · intro hproto
    have hsv : snapshotValues (initialValues avs) = initialValues avs := by
      apply snapshotValues_of_has_false
      rw [jsMapHas_initialValues]
      exact decide_eq_false hproto
    rw [List.getElem?_map, List.getElem?_range (by omega)]
    simp [hsv]

/-- Witness for the corrected C4 with `{}` graph and `{steps: 3}` options;
no template variable is named `__proto__`, so snapshot 0 is exactly the
anchored seeded map. -/
theorem timeSeries_snapshot_count_witness :
    ∃ out, runCausalSimulation (.obj []) (.obj [("steps", .num 3)]) = .ok out ∧
      out.timeSeries.length = (3 : ℚ).num.toNat + 1 ∧
      (∀ (i : ℕ) (s : Snapshot), out.timeSeries[i]? = some s → s.step = i) ∧
      out.timeSeries[0]? = some ⟨0, snapshotValues (initialValues
        (withVariableFallback (normalizeVariablesPure (defaultUndef (.obj [])))))⟩ ∧
      ("__proto__" ∉ (withVariableFallback (normalizeVariablesPure
          (defaultUndef (.obj [])))).map Variable.id →
        out.timeSeries[0]? = some ⟨0, initialValues (withVariableFallback
          (normalizeVariablesPure (defaultUndef (.obj []))))⟩) :=
  timeSeries_snapshot_count (.obj []) (.obj [("steps", .num 3)]) 3
    (withVariableFallback (normalizeVariablesPure (defaultUndef (.obj []))))
    rfl rfl rfl rfl (by norm_num) (by norm_num)

/-! ## C5 -/

theorem jsMapHas_map_zero (values : List (String × ℚ)) (x : String) :
    jsMapHas (values.map (fun kv => (kv.1, (0 : ℚ)))) x = jsMapHas values x := by
  induction values with
  | nil => rfl
  | cons p t ih => rw [List.map_cons, jsMapHas_cons, jsMapHas_cons, ih]

theorem jsMapGet_map_zero (values : List (String × ℚ)) (k : String) :
    (jsMapGet (values.map (fun kv => (kv.1, (0 : ℚ)))) k).getD 0 = 0 := by
  induction values with
  | nil => rfl
  | cons p t ih =>
    by_cases hp : p.1 = k
    · rw [List.map_cons, jsMapGet_cons_pos (p.1, 0) _ k hp]
      rfl
    · rw [List.map_cons, jsMapGet_cons_neg (p.1, 0) _ k hp, ih]

/-- The per-step `deltas` accumulator: the entry at any key equals its initial
entry plus the sum of `value[from] * weight` over the edges with both
endpoints known and target that key. -/
theorem deltaFold_get (values : List (String × ℚ)) (k : String) :
    ∀ (es : List Edge) (d : List (String × ℚ)),
      (∀ x, jsMapHas d x = jsMapHas values x) →
      (jsMapGet (es.foldl (fun deltas e =>
        if jsMapHas values e.fromId && jsMapHas values e.toId then
          jsMapSet deltas e.toId
            (((jsMapGet deltas e.toId).getD 0) +
              ((jsMapGet values e.fromId).getD 0) * e.weight)
        else deltas) d) k).getD 0 =
      (jsMapGet d k).getD 0 +
      ((es.filter (fun e => (jsMapHas values e.fromId && jsMapHas values e.toId) &&
        decide (e.toId = k))).map
        (fun e => (jsMapGet values e.fromId).getD 0 * e.weight)).sum := by
  intro es
  induction es with
  | nil =>
    intro d hd
    simp
  | cons e t ih =>
    intro d hd
    rw [List.foldl_cons, List.filter_cons]
    by_cases hg : (jsMapHas values e.fromId && jsMapHas values e.toId) = true
    · rw [if_pos hg]
      have hto : jsMapHas values e.toId = true := by
        have := hg
        rw [Bool.and_eq_true] at this
        exact this.2
      have hd' : ∀ x, jsMapHas (jsMapSet d e.toId
          (((jsMapGet d e.toId).getD 0) +
            ((jsMapGet values e.fromId).getD 0) * e.weight)) x = jsMapHas values x := by
        intro x
        rw [jsMapHas_set]
        by_cases hx : x = e.toId
        · subst hx
          simp [hto]
        · simp [hx, hd x]
      rw [ih _ hd']
      by_cases hk : e.toId = k
      · subst hk
        rw [if_pos (by simp [hg])]
        rw [jsMapGet_set_self]
        simp only [Option.getD_some, List.map_cons, List.sum_cons]
        ring
      · rw [if_neg (by simp [hk])]
        rw [jsMapGet_set_ne _ _ _ k (fun h => hk h.symm)]
    · rw [if_neg hg, if_neg (by simp [hg])]
      exact ih d hd

theorem influenceDeltas_get (es : List Edge) (values : List (String × ℚ)) (k : String) :
    (jsMapGet (influenceDeltas es values) k).getD 0 =
    ((es.filter (fun e => (jsMapHas values e.fromId && jsMapHas values e.toId) &&
      decide (e.toId = k))).map
      (fun e => (jsMapGet values e.fromId).getD 0 * e.weight)).sum := by
  unfold influenceDeltas
  rw [deltaFold_get values k es _ (jsMapHas_map_zero values)]
  rw [jsMapGet_map_zero]
  ring

/-- C5: the integration step is synchronous and reads only start-of-step
values.  (1) The snapshot recorded at position `i` of any integrator run
carries step field `i` and the plain-object copy of the `i`-fold synchronous
iterate of the step function on the seeded map; (2) hence consecutive
snapshots of a run none of whose variables is named `__proto__` (the key the
plain-object snapshot copy drops) are related by one application of
`eulerStep` to the earlier snapshot's values; (3) `eulerStep` maps each
variable `k` with value `v` to
`clamp (v + dt * (Σ value[from]*weight over edges with known endpoints
targeting k  −  damping * (v − baseline[k])), 0, 10)`; (4) the claimed
scenario: variable `X` at value 5, baseline 5, self-loop weight −0.5,
`steps=1, dt=1, damping=0` gives step-1 value 2.5. -/
theorem euler_step_synchronous :
    (∀ (vs : List Variable) (es : List Edge) (opts : JSValue) (er : EulerResult),
      runEulerSimulation vs es opts = .ok er →
      ∀ (i : ℕ) (s : Snapshot), er.timeSeries[i]? = some s →
        s.step = i ∧
        s.values = snapshotValues ((eulerStep es (baselineValues vs)
          (dtOf (defaultUndef opts)) (dampingOf (defaultUndef opts)))^[i]
          (initialValues vs))) ∧
    (∀ (vs : List Variable) (es : List Edge) (opts : JSValue) (er : EulerResult),
      runEulerSimulation vs es opts = .ok er →
      "__proto__" ∉ vs.map Variable.id →
      ∀ (i : ℕ) (s s' : Snapshot), er.timeSeries[i]? = some s →
        er.timeSeries[i + 1]? = some s' →
        s'.values = eulerStep es (baselineValues vs) (dtOf (defaultUndef opts))
          (dampingOf (defaultUndef opts)) s.values) ∧
    (∀ (es : List Edge) (baselines : List (String × ℚ)) (dt damping : ℚ)
      (values : List (String × ℚ)),
      eulerStep es baselines dt damping values = values.map (fun kv =>
        (kv.1, clamp (kv.2 + dt * (
          ((es.filter (fun e => (jsMapHas values e.fromId && jsMapHas values e.toId) &&
            decide (e.toId = kv.1))).map
            (fun e => (jsMapGet values e.fromId).getD 0 * e.weight)).sum -
          damping * (kv.2 - (jsMapGet baselines kv.1).getD 5))) 0 10))) ∧
    (runEulerSimulation [⟨"X", 5, 5⟩] [⟨"X", "X", -0.5⟩]
        (.obj [("steps", .num 1), ("dt", .num 1), ("damping", .num 0)]) =
      .ok { timeSeries := [⟨0, [("X", 5)]⟩, ⟨1, [("X", 5/2)]⟩]
            finalValues := [("X", 5/2)] }) := by
  have hchar : ∀ (vs : List Variable) (es : List Edge) (opts : JSValue) (er : EulerResult),
      runEulerSimulation vs es opts = .ok er →
      ∀ (i : ℕ) (s : Snapshot), er.timeSeries[i]? = some s →
        s.step = i ∧
        s.values = snapshotValues ((eulerStep es (baselineValues vs)
          (dtOf (defaultUndef opts)) (dampingOf (defaultUndef opts)))^[i]
          (initialValues vs)) := by
    intro vs es opts er hrun i s hs
    have ho : isNull opts = false := by
      cases h : isNull opts with
      | false => rfl
      | true =>
        unfold runEulerSimulation at hrun
        rw [if_pos (by simp [h])] at hrun
        simp at hrun
    rw [runEulerSimulation_eq vs es opts ho] at hrun
    cases hrun
    rw [List.getElem?_map] at hs
    rcases Nat.lt_or_ge i (stepsOf (defaultUndef opts) + 1) with hi | hi
    · rw [List.getElem?_range hi, Option.map_some'] at hs
      injection hs with hs
      rw [← hs]
      exact ⟨rfl, rfl⟩
    · rw [List.getElem?_eq_none (by simpa using hi)] at hs
      simp at hs
  refine ⟨hchar, ?_, ?_, ?_⟩
  · intro vs es opts er hrun hproto i s s' hs hs'
    obtain ⟨-, hsv⟩ := hchar vs es opts er hrun i s hs
    obtain ⟨-, hsv'⟩ := hchar vs es opts er hrun (i + 1) s' hs'
    have hfalse : ∀ j : ℕ, jsMapHas ((eulerStep es (baselineValues vs)
        (dtOf (defaultUndef opts)) (dampingOf (defaultUndef opts)))^[j]
        (initialValues vs)) "__proto__" = false := by
      intro j
      rw [jsMapHas_iterate, jsMapHas_initialValues]
      exact decide_eq_false hproto
    rw [hsv, hsv', snapshotValues_of_has_false _ (hfalse (i + 1)),
      snapshotValues_of_has_false _ (hfalse i), Function.iterate_succ_apply']
  · intro es baselines dt damping values
    simp only [eulerStep, NORMALIZED_RANGE]
    refine List.map_congr_left ?_
    intro kv hkv
    rw [influenceDeltas_get]
  · norm_num +decide [runEulerSimulation, isNull, defaultUndef, isUndef, stepsOf, dtOf,
      dampingOf, getFieldP, initialValues, baselineValues, jsMapSet, jsMapGet,
      jsMapHas, influenceDeltas, eulerStep, clamp, NORMALIZED_RANGE, List.range_succ,
      List.find?_cons, List.find?_nil, Function.iterate_succ, Function.iterate_zero,
      snapshotValues, List.filter_cons, List.filter_nil]

/-- Witness for C5 applying the no-`__proto__` step relation to the scenario
run. -/
theorem euler_step_synchronous_witness :
    ∃ er, runEulerSimulation [⟨"X", 5, 5⟩] [⟨"X", "X", -0.5⟩]
        (.obj [("steps", .num 1), ("dt", .num 1), ("damping", .num 0)]) = .ok er ∧
      ∀ (s s' : Snapshot), er.timeSeries[0]? = some s → er.timeSeries[1]? = some s' →
        s'.values = eulerStep [⟨"X", "X", -0.5⟩] (baselineValues [⟨"X", 5, 5⟩])
          (dtOf (defaultUndef (.obj [("steps", .num 1), ("dt", .num 1),
            ("damping", .num 0)])))
          (dampingOf (defaultUndef (.obj [("steps", .num 1), ("dt", .num 1),
            ("damping", .num 0)]))) s.values := by
  refine ⟨_, euler_step_synchronous.2.2.2, ?_⟩
  intro s s' hs hs'
  exact euler_step_synchronous.2.1 _ _ _ _ euler_step_synchronous.2.2.2 (by decide)
    0 s s' hs hs'

/-! ## C9 -/

theorem foldl_add_eq_sum (l : List ℚ) : l.foldl (fun sum v => sum + v) 0 = l.sum :=
  (List.sum_eq_foldl).symm

/-- Every entry of the association table names at least one factor. -/
theorem VARIABLE_FACTORS_nonempty :
    ∀ kv ∈ VARIABLE_FACTORS, kv.2.isEmpty = false := by decide

/-- Characterization of a successful `anchorVariable`: an own table entry
with at least one finite factor coercion re-anchors value and baseline to
the clamped mean of the finite coercions; every other non-throwing id
returns the variable unmodified. -/
theorem anchorVariable_ok_eq (init : JSValue) (v w : Variable)
    (h : anchorVariable init v = .ok w) :
    w = (match VARIABLE_FACTORS.find? (fun kv => kv.1 = v.id) with
      | none => v
      | some kv =>
        if (kv.2.filterMap (fun factor => jsToNum (getFieldP init factor))) = [] then v
        else ⟨v.id,
          clamp ((kv.2.filterMap (fun factor => jsToNum (getFieldP init factor))).sum /
            ((kv.2.filterMap (fun factor => jsToNum (getFieldP init factor))).length : ℚ))
            0 10,
          clamp ((kv.2.filterMap (fun factor => jsToNum (getFieldP init factor))).sum /
            ((kv.2.filterMap (fun factor => jsToNum (getFieldP init factor))).length : ℚ))
            0 10⟩) := by
  unfold anchorVariable at h
  rcases hf : VARIABLE_FACTORS.find? (fun kv => kv.1 = v.id) with _ | kv
  · simp only [hf] at h ⊢
    split at h
    · split at h
      · simp only [Except.ok.injEq] at h
        exact h.symm
      · simp at h
    · simp only [Except.ok.injEq] at h
      exact h.symm
  · simp only [hf] at h ⊢
    have hne : kv.2.isEmpty = false :=
      VARIABLE_FACTORS_nonempty kv (List.mem_of_find?_eq_some hf)
    rw [if_neg (by simp [hne])] at h
    by_cases hempty : (kv.2.filterMap (fun factor => jsToNum (getFieldP init factor))) = []
    · rw [if_pos (by simp [hempty])] at h
      simp only [Except.ok.injEq] at h
      rw [if_pos hempty]
      exact h.symm
    · rw [if_neg (by simp [hempty])] at h
      simp only [Except.ok.injEq] at h
      rw [if_neg hempty, ← h]
      simp [foldl_add_eq_sum, NORMALIZED_RANGE]

/-- C9 counterexample: the original claim's "variables with no table entry
are left unmodified" fails, and so does "factors that are not numbers leave
the variable untouched".  A variable named `constructor` has no table entry,
yet anchoring **throws** `TypeError` — the prototype-chain lookup yields the
inherited `Object` function, whose arity 1 passes the guard and has no
`map`.  And a table variable whose referenced factors are numeric
**strings** is re-anchored, not left alone: `Number("7")` and `Number("3")`
are finite, so `Isolation` (graph value 6) becomes `(7+3)/2 = 5`. -/
theorem anchor_prototype_counterexample :
    applyInitialStateAnchors [⟨"constructor", 5, 5⟩] (.obj [("emotion", .num 5)]) =
      .error "TypeError" ∧
    applyInitialStateAnchors [⟨"Isolation", 6, 5⟩]
      (.obj [("emotion", .str "7"), ("meaning", .str "3")]) =
      .ok [⟨"Isolation", 5, 5⟩] := by
  have h7 : jsToNum (.str "7") = some 7 := rfl
  have h3 : jsToNum (.str "3") = some 3 := rfl
  constructor
  · rfl
  · norm_num +decide [applyInitialStateAnchors, truthy, isObjectType, anchorAll,
      anchorVariable, VARIABLE_FACTORS, List.find?_cons, List.find?_nil, getFieldP,
      h7, h3, List.filterMap_cons, List.filterMap_nil, clamp, NORMALIZED_RANGE,
      bind, Except.bind, pure, Except.pure]

/-- C9 corrected: with `initialState` a (truthy) object, a **successful**
anchoring maps the variable list pointwise, and for each variable: an id
with a table entry whose referenced factors have at least one finite
`Number` coercion (numeric strings included) gets **both** value and
baseline set to the clamped mean of those finite coercions — overriding
whatever the graph description supplied — while a table id with no finite
referenced factor, and every non-throwing id without a table entry, is
returned unmodified.  An id without a table entry that names a
positive-arity `Object.prototype` function is **not** left unmodified: the
whole anchoring call throws `TypeError` (second conjunct). -/
theorem anchor_precedence :
    (∀ (vs : List Variable) (fields : List (String × JSValue)) (ws : List Variable),
      applyInitialStateAnchors vs (.obj fields) = .ok ws →
      ws.length = vs.length ∧
      ∀ (i : ℕ) (v : Variable), vs[i]? = some v →
        ws[i]? = some (match VARIABLE_FACTORS.find? (fun kv => kv.1 = v.id) with
          | none => v
          | some kv =>
            if (kv.2.filterMap (fun factor => jsToNum (getFieldP (.obj fields) factor))) = []
            then v
            else ⟨v.id,
              clamp ((kv.2.filterMap (fun factor =>
                jsToNum (getFieldP (.obj fields) factor))).sum /
                ((kv.2.filterMap (fun factor =>
                  jsToNum (getFieldP (.obj fields) factor))).length : ℚ)) 0 10,
              clamp ((kv.2.filterMap (fun factor =>
                jsToNum (getFieldP (.obj fields) factor))).sum /
                ((kv.2.filterMap (fun factor =>
                  jsToNum (getFieldP (.obj fields) factor))).length : ℚ)) 0 10⟩)) ∧
    (∀ (vs : List Variable) (fields : List (String × JSValue)) (v : Variable)
      (kv : String × ℕ), v ∈ vs →
      VARIABLE_FACTORS.find? (fun p => p.1 = v.id) = none →
      OBJECT_PROTOTYPE_ARITY.find? (fun p => p.1 = v.id) = some kv → 0 < kv.2 →
      applyInitialStateAnchors vs (.obj fields) = .error "TypeError") := by
  constructor
  · intro vs fields ws h
    unfold applyInitialStateAnchors at h
    rw [if_neg (by simp [truthy, isObjectType])] at h
    obtain ⟨hlen, hget⟩ := anchorAll_ok_get (.obj fields) vs ws h
    refine ⟨hlen, ?_⟩
    intro i v hv
    obtain ⟨w, hw, hok⟩ := hget i v hv
    rw [hw, anchorVariable_ok_eq (.obj fields) v w hok]
  · intro vs fields v kv hv hown hproto hpos
    unfold applyInitialStateAnchors
    rw [if_neg (by simp [truthy, isObjectType])]
    refine anchorAll_error_of_mem (.obj fields) vs v hv ?_
    unfold anchorVariable
    simp only [hown, hproto]
    rw [if_neg (by omega)]

/-- Witness for the corrected C9: with `initialState = {emotion: 7,
meaning: 3}` the template variable `Isolation` (graph value 6) is
re-anchored to `clamp((7+3)/2) = 5` for both value and baseline, and the
unknown id `Custom` is untouched. -/
theorem anchor_precedence_witness :
    ∃ ws, applyInitialStateAnchors [⟨"Isolation", 6, 5⟩, ⟨"Custom", 2, 3⟩]
        (.obj [("emotion", .num 7), ("meaning", .num 3)]) = .ok ws ∧
      ws.length = 2 ∧
      ws[0]? = some ⟨"Isolation", clamp (((7 : ℚ) + 3) / 2) 0 10,
        clamp (((7 : ℚ) + 3) / 2) 0 10⟩ ∧
      ws[1]? = some ⟨"Custom", 2, 3⟩ := by
  have hok : applyInitialStateAnchors [⟨"Isolation", 6, 5⟩, ⟨"Custom", 2, 3⟩]
      (.obj [("emotion", .num 7), ("meaning", .num 3)]) =
      .ok [⟨"Isolation", clamp (((7 : ℚ) + 3) / 2) 0 10, clamp (((7 : ℚ) + 3) / 2) 0 10⟩,
        ⟨"Custom", 2, 3⟩] := by
    norm_num +decide [applyInitialStateAnchors, truthy, isObjectType, anchorAll,
      anchorVariable, VARIABLE_FACTORS, OBJECT_PROTOTYPE_ARITY, List.find?_cons,
      List.find?_nil, getFieldP, jsToNum, List.filterMap_cons, List.filterMap_nil,
      NORMALIZED_RANGE, bind, Except.bind, pure, Except.pure]
  obtain ⟨hlen, hget⟩ := anchor_precedence.1 _ _ _ hok
  refine ⟨_, hok, hlen.trans rfl, ?_, ?_⟩
  · have h0 := hget 0 ⟨"Isolation", 6, 5⟩ rfl
    rw [h0]
    norm_num +decide [VARIABLE_FACTORS, getFieldP, jsToNum, List.find?_cons,
      List.find?_nil, List.filterMap_cons, List.filterMap_nil]
  · have h1 := hget 1 ⟨"Custom", 2, 3⟩ rfl
    rw [h1]
    norm_num +decide [VARIABLE_FACTORS, List.find?_cons, List.find?_nil]

/-! ## C6 -/

/-- The two-edge graph `A→B, B→A`, in the given edge order: one record, keyed
by the canonical rotation starting at `A`. -/
theorem twoCycleEvalAB (w1 w2 : ℚ) :
    detectCyclesKeyed [⟨"A", "B", w1⟩, ⟨"B", "A", w2⟩] =
    [("A->B->A", mkCycleRecord (maxAbsOf [⟨"A", "B", w1⟩, ⟨"B", "A", w2⟩])
      ["A", "B", "A"] [w1, w2])] := by
  simp +decide [detectCyclesKeyed, endpointNodes, visitCycles, outgoing, stackIndexOf,
    canonicalizeCycle, minRotation, listLexLt, strLtB, charListLt, List.filter_cons]

/-- The same graph with the edges listed the other way round: the traversal
starts at `B` instead, and the single record carries the same canonical key. -/
theorem twoCycleEvalBA (w1 w2 : ℚ) :
    detectCyclesKeyed [⟨"B", "A", w2⟩, ⟨"A", "B", w1⟩] =
    [("A->B->A", mkCycleRecord (maxAbsOf [⟨"B", "A", w2⟩, ⟨"A", "B", w1⟩])
      ["B", "A", "B"] [w2, w1])] := by
  simp +decide [detectCyclesKeyed, endpointNodes, visitCycles, outgoing, stackIndexOf,
    canonicalizeCycle, minRotation, listLexLt, strLtB, charListLt, List.filter_cons]

/-- Classification of a 2-cycle's polarity in terms of the two weights. -/
theorem twoWeight_type (w1 w2 : ℚ) :
    ((if 0 < signProduct [w1, w2] then "Reinforcing" else "Balancing") = "Reinforcing" ↔
      (jsSign w1 = jsSign w2 ∧ w1 ≠ 0 ∧ w2 ≠ 0)) ∧
    ((if 0 < signProduct [w1, w2] then "Reinforcing" else "Balancing") = "Balancing" ↔
      ¬(jsSign w1 = jsSign w2 ∧ w1 ≠ 0 ∧ w2 ≠ 0)) := by
  have hsp : signProduct [w1, w2] =
      (if w1 = 0 then 0 else jsSign w1) * (if w2 = 0 then 0 else jsSign w2) := by
    simp [signProduct]
  rw [hsp]
  by_cases hz1 : w1 = 0
  · simp +decide [hz1]
  by_cases hz2 : w2 = 0
  · simp +decide [hz2]
  by_cases hp1 : 0 < w1 <;> by_cases hp2 : 0 < w2
  · simp +decide [jsSign, hz1, hz2, hp1, hp2]
  · have hn2 : w2 < 0 := lt_of_le_of_ne (not_lt.mp hp2) hz2
    simp +decide [jsSign, hz1, hz2, hp1, hp2, hn2]
  · have hn1 : w1 < 0 := lt_of_le_of_ne (not_lt.mp hp1) hz1
    simp +decide [jsSign, hz1, hz2, hp1, hp2, hn1]
  · have hn1 : w1 < 0 := lt_of_le_of_ne (not_lt.mp hp1) hz1
    have hn2 : w2 < 0 := lt_of_le_of_ne (not_lt.mp hp2) hz2
    simp +decide [jsSign, hz1, hz2, hp1, hp2, hn1, hn2]

/-- C6: (general part) the detector's `seen` map is keyed by the
rotation-minimal canonical node sequence, so the stored records carry
pairwise-distinct canonical keys — one record per distinct simple cycle;
(scenario) for the two-edge graph `A→B (w1), B→A (w2)`, in either edge/DFS
start order, exactly one record is produced, its node list is a rotation of
`[A, B]`, and its type is `Reinforcing` iff the two weights have equal
`Math.sign` and neither is zero, otherwise `Balancing`. -/
theorem cycle_dedup :
    (∀ edges : List Edge, ((detectCyclesKeyed edges).map Prod.fst).Nodup) ∧
    (∀ w1 w2 : ℚ,
      ((detectCycles [⟨"A", "B", w1⟩, ⟨"B", "A", w2⟩]).length = 1 ∧
       (detectCycles [⟨"B", "A", w2⟩, ⟨"A", "B", w1⟩]).length = 1) ∧
      ∀ r : CycleRecord,
        (r ∈ detectCycles [⟨"A", "B", w1⟩, ⟨"B", "A", w2⟩] ∨
         r ∈ detectCycles [⟨"B", "A", w2⟩, ⟨"A", "B", w1⟩]) →
        (r.nodes = ["A", "B"] ∨ r.nodes = ["B", "A"]) ∧
        (r.type = "Reinforcing" ↔ (jsSign w1 = jsSign w2 ∧ w1 ≠ 0 ∧ w2 ≠ 0)) ∧
        (r.type = "Balancing" ↔ ¬(jsSign w1 = jsSign w2 ∧ w1 ≠ 0 ∧ w2 ≠ 0))) := by
  refine ⟨detectCyclesKeyed_nodup, ?_⟩
  intro w1 w2
  constructor
  · constructor
    · unfold detectCycles
      rw [twoCycleEvalAB]
      rfl
    · unfold detectCycles
      rw [twoCycleEvalBA]
      rfl
  · intro r hr
    have hrec : r = mkCycleRecord (maxAbsOf [⟨"A", "B", w1⟩, ⟨"B", "A", w2⟩])
          ["A", "B", "A"] [w1, w2] ∨
        r = mkCycleRecord (maxAbsOf [⟨"B", "A", w2⟩, ⟨"A", "B", w1⟩])
          ["B", "A", "B"] [w2, w1] := by
      rcases hr with hr | hr
      · left
        unfold detectCycles at hr
        rw [twoCycleEvalAB] at hr
        simpa using hr
      · right
        unfold detectCycles at hr
        rw [twoCycleEvalBA] at hr
        simpa using hr
    rcases hrec with hrec | hrec
    · subst hrec
      refine ⟨Or.inl (by simp [mkCycleRecord]), ?_, ?_⟩
      · exact (twoWeight_type w1 w2).1
      · exact (twoWeight_type w1 w2).2
    · subst hrec
      have hsym : signProduct [w2, w1] = signProduct [w1, w2] := by
        simp only [signProduct, List.foldl_cons, List.foldl_nil, one_mul]
        exact mul_comm _ _
      refine ⟨Or.inr (by simp [mkCycleRecord]), ?_, ?_⟩
      · show (if 0 < signProduct [w2, w1] then "Reinforcing" else "Balancing") =
            "Reinforcing" ↔ _
        rw [hsym]
        exact (twoWeight_type w1 w2).1
      · show (if 0 < signProduct [w2, w1] then "Reinforcing" else "Balancing") =
            "Balancing" ↔ _
        rw [hsym]
        exact (twoWeight_type w1 w2).2

/-- Witness for C6 with both weights 1. -/
theorem cycle_dedup_witness :
    (detectCycles [⟨"A", "B", (1 : ℚ)⟩, ⟨"B", "A", (1 : ℚ)⟩]).length = 1 ∧
    ((mkCycleRecord (maxAbsOf [⟨"A", "B", (1 : ℚ)⟩, ⟨"B", "A", (1 : ℚ)⟩])
        ["A", "B", "A"] [1, 1]).type = "Reinforcing" ↔
      (jsSign 1 = jsSign 1 ∧ (1 : ℚ) ≠ 0 ∧ (1 : ℚ) ≠ 0)) := by
  have hmem : mkCycleRecord (maxAbsOf [⟨"A", "B", (1 : ℚ)⟩, ⟨"B", "A", (1 : ℚ)⟩])
      ["A", "B", "A"] [1, 1] ∈ detectCycles [⟨"A", "B", (1 : ℚ)⟩, ⟨"B", "A", (1 : ℚ)⟩] := by
    unfold detectCycles
    rw [twoCycleEvalAB]
    simp
  exact ⟨((cycle_dedup.2 1 1).1).1,
    ((cycle_dedup.2 1 1).2 _ (Or.inl hmem)).2.1⟩

/-! ## C10 -/

/-- An edge with an endpoint that is not a key of `values` is skipped by the
`deltas` accumulation: deleting it from the edge list changes nothing. -/
theorem influenceDeltas_skip (edges1 edges2 : List Edge) (e : Edge)
    (m : List (String × ℚ))
    (h : jsMapHas m e.fromId = false ∨ jsMapHas m e.toId = false) :
    influenceDeltas (edges1 ++ e :: edges2) m = influenceDeltas (edges1 ++ edges2) m := by
  unfold influenceDeltas
  simp only [List.foldl_append, List.foldl_cons]
  rcases h with h | h
  · rw [if_neg (by simp [h])]
  · rw [if_neg (by simp [h])]

/-- The same edge is then inert for a whole integration step. -/
theorem eulerStep_skip (edges1 edges2 : List Edge) (e : Edge)
    (baselines : List (String × ℚ)) (dt damping : ℚ) (m : List (String × ℚ))
    (h : jsMapHas m e.fromId = false ∨ jsMapHas m e.toId = false) :
    eulerStep (edges1 ++ e :: edges2) baselines dt damping m =
      eulerStep (edges1 ++ edges2) baselines dt damping m := by
  unfold eulerStep
  rw [influenceDeltas_skip edges1 edges2 e m h]

/-- …and for every iterated step starting from the seeded `values` map, as
soon as one of its endpoint ids is not a variable id. -/
theorem iterate_skip (vs : List Variable) (edges1 edges2 : List Edge) (e : Edge)
    (baselines : List (String × ℚ)) (dt damping : ℚ)
    (h : e.fromId ∉ vs.map Variable.id ∨ e.toId ∉ vs.map Variable.id) :
    ∀ i, (eulerStep (edges1 ++ e :: edges2) baselines dt damping)^[i] (initialValues vs) =
      (eulerStep (edges1 ++ edges2) baselines dt damping)^[i] (initialValues vs) := by
  intro i
  induction i with
  | zero => rfl
  | succ n ih =>
    rw [Function.iterate_succ_apply', Function.iterate_succ_apply', ih]
    apply eulerStep_skip
    rcases h with h | h
    · left
      rw [jsMapHas_iterate, jsMapHas_initialValues]
      exact decide_eq_false h
    · right
      rw [jsMapHas_iterate, jsMapHas_initialValues]
      exact decide_eq_false h

/-- Membership in the deduplicating fold of `detectCycles`'s node collection:
an element is in the result iff it is in the accumulator or in the input. -/
theorem mem_dedupFold (x : String) :
    ∀ (l acc : List String),
      x ∈ l.foldl (fun acc n => if n ∈ acc then acc else acc ++ [n]) acc ↔
        (x ∈ acc ∨ x ∈ l) := by
  intro l
  induction l with
  | nil =>
    intro acc
    simp
  | cons n t ih =>
    intro acc
    simp only [List.foldl_cons]
    constructor
    · intro hmem
      rcases (ih _).mp hmem with hacc | ht
      · by_cases hn : n ∈ acc
        · rw [if_pos hn] at hacc
          exact Or.inl hacc
        · rw [if_neg hn] at hacc
          rcases List.mem_append.mp hacc with h1 | h2
          · exact Or.inl h1
          · simp only [List.mem_singleton] at h2
            exact Or.inr (by simp [h2])
      · exact Or.inr (List.mem_cons_of_mem _ ht)
    · intro hmem
      apply (ih _).mpr
      rcases hmem with hacc | hl
      · left
        by_cases hn : n ∈ acc
        · rwa [if_pos hn]
        · rw [if_neg hn]
          exact List.mem_append_left _ hacc
      · rcases List.mem_cons.mp hl with rfl | ht
        · left
          by_cases hn : x ∈ acc
          · rwa [if_pos hn]
          · rw [if_neg hn]
            simp
        · exact Or.inr ht

/-- Membership in the flat endpoint collection of `detectCycles`: an element
is in the fold iff it is in the accumulator or is an endpoint of some edge. -/
theorem mem_flatEndpoints (x : String) :
    ∀ (es : List Edge) (acc : List String),
      x ∈ es.foldl (fun acc e => acc ++ [e.fromId, e.toId]) acc ↔
        (x ∈ acc ∨ ∃ e ∈ es, x = e.fromId ∨ x = e.toId) := by
  intro es
  induction es with
  | nil =>
    intro acc
    simp
  | cons e t ih =>
    intro acc
    simp only [List.foldl_cons]
    rw [ih]
    constructor
    · rintro (hacc | he)
      · rcases List.mem_append.mp hacc with h1 | h2
        · exact Or.inl h1
        · simp at h2
          exact Or.inr ⟨e, List.mem_cons_self _ _, h2⟩
      · obtain ⟨f, hf, hx⟩ := he
        exact Or.inr ⟨f, List.mem_cons_of_mem _ hf, hx⟩
    · rintro (hacc | ⟨f, hf, hx⟩)
      · exact Or.inl (List.mem_append_left _ hacc)
      · rcases List.mem_cons.mp hf with rfl | ht
        · left
          apply List.mem_append_right
          simpa using hx
        · exact Or.inr ⟨f, ht, hx⟩

/-- C10: an edge one of whose endpoint ids is not the id of any variable
contributes nothing to the integration — deleting it from the edge list
leaves every snapshot of `runEulerSimulation`'s time series and its final
values unchanged, for every option object — yet cycle detection ranges over
every id appearing as an edge endpoint: both endpoints of every edge, known
or not, are among the start nodes `detectCycles` searches from.  Concretely,
the self-loop `X → X` (weight −0.5) is inert for the integrator when the
only variable is `Y` — the run equals the run with no edges at all — while
`detectCycles` still reports its cycle. -/
theorem unknown_endpoint_edges :
    (∀ (vs : List Variable) (edges1 edges2 : List Edge) (e : Edge) (opts : JSValue),
      (e.fromId ∉ vs.map Variable.id ∨ e.toId ∉ vs.map Variable.id) →
      runEulerSimulation vs (edges1 ++ e :: edges2) opts =
        runEulerSimulation vs (edges1 ++ edges2) opts) ∧
    (∀ (edges : List Edge) (e : Edge), e ∈ edges →
      e.fromId ∈ endpointNodes edges ∧ e.toId ∈ endpointNodes edges) ∧
    (runEulerSimulation [⟨"Y", 5, 5⟩] [⟨"X", "X", -0.5⟩] (.obj []) =
        runEulerSimulation [⟨"Y", 5, 5⟩] [] (.obj []) ∧
      (detectCycles [⟨"X", "X", -0.5⟩]).length = 1) := by
  have ha : ∀ (vs : List Variable) (edges1 edges2 : List Edge) (e : Edge) (opts : JSValue),
      (e.fromId ∉ vs.map Variable.id ∨ e.toId ∉ vs.map Variable.id) →
      runEulerSimulation vs (edges1 ++ e :: edges2) opts =
        runEulerSimulation vs (edges1 ++ edges2) opts := by
    intro vs edges1 edges2 e opts h
    rcases Bool.eq_false_or_eq_true (isNull opts) with hn | hn
    · simp [runEulerSimulation, hn]
    · rw [runEulerSimulation_eq vs (edges1 ++ e :: edges2) opts hn,
        runEulerSimulation_eq vs (edges1 ++ edges2) opts hn]
      simp only [iterate_skip vs edges1 edges2 e (baselineValues vs)
        (dtOf (defaultUndef opts)) (dampingOf (defaultUndef opts)) h]
  refine ⟨ha, ?_, ?_, ?_⟩
  · intro edges e he
    unfold endpointNodes
    constructor
    · exact (mem_dedupFold e.fromId _ []).mpr (Or.inr
        ((mem_flatEndpoints e.fromId edges []).mpr (Or.inr ⟨e, he, Or.inl rfl⟩)))
    · exact (mem_dedupFold e.toId _ []).mpr (Or.inr
        ((mem_flatEndpoints e.toId edges []).mpr (Or.inr ⟨e, he, Or.inr rfl⟩)))
  · exact ha [⟨"Y", 5, 5⟩] [] [] ⟨"X", "X", -0.5⟩ (.obj []) (Or.inl (by decide))
  · rw [selfLoopEval]
    rfl

/-- Witness for `unknown_endpoint_edges`: with the single variable `Y`, the
unknown-endpoint self-loop on `X` may be deleted from a two-edge list without
changing the run, and `X` is nonetheless a cycle-detection start node. -/
theorem unknown_endpoint_edges_witness :
    (runEulerSimulation [⟨"Y", 5, 5⟩] [⟨"X", "X", -0.5⟩, ⟨"Y", "Y", 1⟩] (.obj []) =
      runEulerSimulation [⟨"Y", 5, 5⟩] [⟨"Y", "Y", 1⟩] (.obj [])) ∧
    "X" ∈ endpointNodes [⟨"X", "X", -0.5⟩] :=
  ⟨unknown_endpoint_edges.1 [⟨"Y", 5, 5⟩] [] [⟨"Y", "Y", 1⟩] ⟨"X", "X", -0.5⟩ (.obj [])
      (Or.inl (by decide)),
    (unknown_endpoint_edges.2.1 [⟨"X", "X", -0.5⟩] ⟨"X", "X", -0.5⟩
      (List.mem_singleton.mpr rfl)).1⟩

end Engine
